import Mathlib

set_option maxRecDepth 16384

/-!
Verification development for the oc-notifier repository.

The file shallowly embeds the core of the program:

* the session-status event handler, the debounce-timer callback, the
  question-tool handler and the two periodic cleanup sweeps from
  `src/index.ts`, as a step function over an explicit application state;
* the SSE stream decoder and the reconnect backoff loop from
  `src/sse-client.ts`;
* the notification fan-out from `src/notifier.ts`.

JavaScript `Map` and `Set` objects are modelled as association lists over
`String` keys; `setTimeout` timers are modelled by a set of live timer
identifiers together with the `pendingNotifications` map from session
identifiers to timer identifiers; the remote `fetchSessionInfo` call is an
oracle parameter of the step function.
-/

namespace OcNotifier

/-! Association-list model of the JavaScript `Map` and `Set` objects. -/

def mget {α : Type} (l : List (String × α)) (k : String) : Option α :=
  (l.find? (fun p => p.1 == k)).map (·.2)

def mset {α : Type} (l : List (String × α)) (k : String) (v : α) : List (String × α) :=
  (k, v) :: l.filter (fun p => p.1 != k)

def mdel {α : Type} (l : List (String × α)) (k : String) : List (String × α) :=
  l.filter (fun p => p.1 != k)

def sadd (l : List String) (k : String) : List String :=
  if l.contains k then l else k :: l

theorem mget_nil {α : Type} (k : String) : mget ([] : List (String × α)) k = none := rfl

theorem mget_cons {α : Type} (k₀ : String) (v₀ : α) (t : List (String × α)) (k : String) :
    mget ((k₀, v₀) :: t) k = if k₀ = k then some v₀ else mget t k := by
  by_cases h : k₀ = k
  · simp [mget, List.find?, h]
  · have hb : (k₀ == k) = false := by simp [h]
    simp [mget, List.find?, hb, h]

theorem mget_filter_key {α : Type} (l : List (String × α)) (q : String → Bool) (k : String) :
    mget (l.filter (fun p => q p.1)) k = if q k then mget l k else none := by
  induction l with
  | nil => simp [mget]
  | cons hd t ih =>
    obtain ⟨k₀, v₀⟩ := hd
    by_cases hq : q k₀
    · rw [show ((k₀, v₀) :: t).filter (fun p => q p.1) =
          (k₀, v₀) :: t.filter (fun p => q p.1) by simp [List.filter, hq]]
      rw [mget_cons, mget_cons]
      by_cases hk : k₀ = k
      · subst hk; simp [hq]
      · simp [hk, ih]
    · rw [show ((k₀, v₀) :: t).filter (fun p => q p.1) =
          t.filter (fun p => q p.1) by simp [List.filter, hq]]
      rw [ih, mget_cons]
      by_cases hk : k₀ = k
      · subst hk; simp [hq]
      · simp [hk]

theorem mget_mdel {α : Type} (l : List (String × α)) (k k₂ : String) :
    mget (mdel l k) k₂ = if k₂ = k then none else mget l k₂ := by
  have h := mget_filter_key l (fun s => s != k) k₂
  simp only [mdel]
  rw [show (fun (p : String × α) => p.1 != k) = (fun p => (fun s => s != k) p.1) from rfl, h]
  by_cases hk : k₂ = k
  · simp [hk]
  · simp [hk, bne_iff_ne]

theorem mget_mset_self {α : Type} (l : List (String × α)) (k : String) (v : α) :
    mget (mset l k v) k = some v := by
  simp [mset, mget_cons]

theorem mget_mset_ne {α : Type} (l : List (String × α)) (k : String) (v : α) (k₂ : String)
    (h : k₂ ≠ k) : mget (mset l k v) k₂ = mget l k₂ := by
  simp only [mset]
  rw [mget_cons]
  have hd := mget_mdel l k k₂
  simp only [mdel] at hd
  simp [Ne.symm h, h] at hd ⊢
  exact hd

theorem contains_sadd_self (l : List String) (k : String) : (sadd l k).contains k = true := by
  simp only [sadd]
  by_cases h : l.contains k = true
  · rw [if_pos h]; exact h
  · rw [if_neg h]; simp [List.contains_cons]

theorem contains_sadd_of (l : List String) (k k₂ : String) (h : l.contains k₂ = true) :
    (sadd l k).contains k₂ = true := by
  simp only [sadd]
  by_cases hc : l.contains k = true
  · rw [if_pos hc]; exact h
  · rw [if_neg hc]; simp only [List.contains_cons]
    simp at h
    simp [h]

theorem contains_sadd_eq (l : List String) (k k₂ : String) (h : k₂ ≠ k) :
    (sadd l k).contains k₂ = l.contains k₂ := by
  simp only [sadd]
  by_cases hc : l.contains k = true
  · rw [if_pos hc]
  · rw [if_neg hc]
    simp [List.contains_cons, h]

theorem contains_filter (l : List String) (q : String → Bool) (k : String) :
    (l.filter q).contains k = (l.contains k && q k) := by
  induction l with
  | nil => simp
  | cons hd t ih =>
    by_cases hq : q hd = true
    · rw [List.filter_cons_of_pos hq]
      by_cases hk : k = hd
      · subst hk; simp [List.contains_cons, hq]
      · simp [List.contains_cons, hk, ih]
    · rw [List.filter_cons_of_neg hq]
      by_cases hk : k = hd
      · subst hk
        simp [List.contains_cons, ih, hq]
      · simp [List.contains_cons, hk, ih]

/-! Data model, from the type declarations in `src/sse-client.ts` and the
    state maps in `src/index.ts`. -/

/-- `SessionStatus` from `src/sse-client.ts` (only the variant tag drives the
    handler logic; the retry payload is carried but unused). -/
inductive SStatus : Type where
  | idle : SStatus
  | busy : SStatus
  | retry (attempt : Nat) (message : String) (next : Nat) : SStatus
deriving DecidableEq

/-- The `status.type` string the handler compares against, as in
    `event.properties.status.type`. -/
def statusTag : SStatus → String
  | .idle => "idle"
  | .busy => "busy"
  | .retry _ _ _ => "retry"

theorem statusTag_ne_empty (st : SStatus) : statusTag st ≠ "" := by
  cases st <;> simp [statusTag]

/-- `SessionInfo` as produced by `SSEClient.fetchSessionInfo`. -/
structure SessionInfo : Type where
  id : String
  parentSessionID : Option String
  title : String
  projectID : String
deriving DecidableEq

/-- Entry of the `sessionState` map in `src/index.ts`. -/
structure TrackedState : Type where
  status : String
  lastSeen : Nat
deriving DecidableEq

/-- The `Notification` record from `src/providers/types.ts` as constructed in
    `src/index.ts` (timestamps as natural numbers). -/
structure Notification : Type where
  ntype : String
  sessionId : String
  sessionTitle : String
  projectId : String
  projectDirectory : String
  desktopUrl : String
  timestamp : Nat
  question : Option String
deriving DecidableEq

/-- The configuration fields the core handlers read. -/
structure OcConfig : Type where
  desktopBaseUrl : String
  debounceMs : Nat

/-- Application state of `main()` in `src/index.ts`: the three tracking
    collections, the question dedup map, plus an explicit model of the
    outstanding `setTimeout` timers (`liveTimers` holds
    `(timer id, session id, captured directory)`), a log of dispatched
    notifications and a log of scheduling decisions. -/
structure AppState : Type where
  sessionState : List (String × TrackedState)
  pending : List (String × Nat)
  liveTimers : List (Nat × String × String)
  knownSubagents : List String
  notifiedQuestions : List (String × Nat)
  sentNotifications : List Notification
  scheduleLog : List String
  nextTimer : Nat
deriving DecidableEq

def initState : AppState :=
  { sessionState := [], pending := [], liveTimers := [], knownSubagents := [],
    notifiedQuestions := [], sentNotifications := [], scheduleLog := [], nextTimer := 0 }

def SESSION_TTL_MS : Nat := 60 * 60 * 1000

def QUESTION_TTL_MS : Nat := 30 * 60 * 1000

/-- `buildDesktopUrl` from `src/index.ts`: one trailing slash of the base URL
    is stripped, as by `replace(/\x7b-slash-dollar/, "")` on the base. -/
def buildDesktopUrl (baseUrl projectId sessionId : String) : String :=
  (if baseUrl.endsWith "/" then baseUrl.dropRight 1 else baseUrl)
    ++ "/" ++ projectId ++ "/session/" ++ sessionId

/-- JavaScript truthiness of `sessionInfo?.parentSessionID` at the subagent
    checks: present and not the empty string. -/
def isSubagentInfo : Option SessionInfo → Bool
  | some i =>
    match i.parentSessionID with
    | some p => p != ""
    | none => false
  | none => false

/-- Title fallback `sessionInfo?.title || sessionID`. -/
def titleOrId (info : Option SessionInfo) (sid : String) : String :=
  match info with
  | some i => if i.title = "" then sid else i.title
  | none => sid

/-- Project id fallback `sessionInfo?.projectID || ""`. -/
def projectIdOf (info : Option SessionInfo) : String :=
  match info with
  | some i => i.projectID
  | none => ""

/-- Notification construction shared by the idle and question paths of
    `src/index.ts`. -/
def mkNotification (cfg : OcConfig) (ntype sid dir : String) (now : Nat)
    (info : Option SessionInfo) (q : Option String) : Notification :=
  { ntype := ntype
    sessionId := sid
    sessionTitle := titleOrId info sid
    projectId := projectIdOf info
    projectDirectory := dir
    desktopUrl := buildDesktopUrl cfg.desktopBaseUrl (projectIdOf info) sid
    timestamp := now
    question := q }

/-- Truthiness test `prevStatus && prevStatus !== "idle"` guarding the idle
    transition branch. -/
def prevTruthyNonIdle : Option String → Bool
  | none => false
  | some p => p != "" && p != "idle"

/-- Tracked status of a session, `sessionState.get(sessionID)?.status`. -/
def statusOf (s : AppState) (sid : String) : Option String :=
  (mget s.sessionState sid).map (·.status)

/-- Non-idle branch of the session-status handler (`src/index.ts` lines
    111-121): cancel and forget any pending debounce timer. -/
def cancelPending (sid : String) (s : AppState) : AppState :=
  match mget s.pending sid with
  | some tid =>
    { s with pending := mdel s.pending sid
             liveTimers := s.liveTimers.filter (fun e => e.1 != tid) }
  | none => s

/-- Idle transition branch of the session-status handler (`src/index.ts`
    lines 124-171): schedule a fresh debounce timer unless one is pending. -/
def scheduleTimer (sid dir : String) (s : AppState) : AppState :=
  if (mget s.pending sid).isSome then s
  else
    { s with liveTimers := (s.nextTimer, sid, dir) :: s.liveTimers
             pending := mset s.pending sid s.nextTimer
             scheduleLog := s.scheduleLog ++ [sid]
             nextTimer := s.nextTimer + 1 }

/-- The `sseClient.onSessionStatus` handler from `src/index.ts` (lines
    93-172), with the debounce callback body split off into
    `handleTimerFire`. -/
def handleSessionStatus (sid : String) (st : SStatus) (dir : String) (now : Nat)
    (s : AppState) : AppState :=
  let prev := statusOf s sid
  let s₁ := { s with sessionState := mset s.sessionState sid ⟨statusTag st, now⟩ }
  if s₁.knownSubagents.contains sid then s₁
  else if statusTag st ≠ "idle" then cancelPending sid s₁
  else if prevTruthyNonIdle prev then scheduleTimer sid dir s₁
  else s₁

/-- The debounce timer callback from `src/index.ts` (lines 133-168), fired
    for a live timer identifier. A fire consumes the timer; the callback
    first forgets the pending entry, re-checks the tracked status, then
    resolves metadata through the oracle and either marks a subagent or
    dispatches the idle notification. -/
def handleTimerFire (cfg : OcConfig) (oracle : String → String → Option SessionInfo)
    (tid : Nat) (now : Nat) (s : AppState) : AppState :=
  match s.liveTimers.find? (fun e => e.1 == tid) with
  | none => s
  | some (_, sid, dir) =>
    let s₁ := { s with liveTimers := s.liveTimers.filter (fun e => e.1 != tid)
                       pending := mdel s.pending sid }
    match mget s₁.sessionState sid with
    | none => s₁
    | some st =>
      if st.status ≠ "idle" then s₁
      else if isSubagentInfo (oracle sid dir) then
        { s₁ with knownSubagents := sadd s₁.knownSubagents sid }
      else
        { s₁ with sentNotifications :=
            s₁.sentNotifications ++ [mkNotification cfg "idle" sid dir now (oracle sid dir) none] }

/-- Extraction `input.questions?.[0]?.question || "OpenCode is waiting for
    your input"` from the question-tool handler. -/
def extractQuestion : Option String → String
  | some q => if q = "" then "OpenCode is waiting for your input" else q
  | none => "OpenCode is waiting for your input"

/-- Dedup key of the question-tool handler:
    sessionID, a colon, and the first 100 characters of the question text. -/
def questionKey (sid qtext : String) : String :=
  sid ++ ":" ++ (qtext.take 100)

/-- The `sseClient.onQuestionTool` handler from `src/index.ts` (lines
    190-239). -/
def handleQuestion (cfg : OcConfig) (oracle : String → String → Option SessionInfo)
    (sid qstatus : String) (qo : Option String) (dir : String) (now : Nat)
    (s : AppState) : AppState :=
  if qstatus ≠ "running" then s
  else if s.knownSubagents.contains sid then s
  else if (mget s.notifiedQuestions (questionKey sid (extractQuestion qo))).isSome then s
  else if isSubagentInfo (oracle sid dir) then
    { s with knownSubagents := sadd s.knownSubagents sid }
  else
    { s with notifiedQuestions := mset s.notifiedQuestions (questionKey sid (extractQuestion qo)) now
             sentNotifications := s.sentNotifications ++
               [mkNotification cfg "question" sid dir now (oracle sid dir)
                 (some (extractQuestion qo))] }

/-- The session reclamation sweep from `src/index.ts` (lines 75-88): drop
    tracked entries whose age exceeds the retention threshold and, for
    exactly those sessions, the known-subagent marker. -/
def sweepSessions (now : Nat) (s : AppState) : AppState :=
  { s with sessionState := s.sessionState.filter (fun p => decide (now - p.2.lastSeen ≤ SESSION_TTL_MS))
           knownSubagents := s.knownSubagents.filter (fun k =>
             match mget s.sessionState k with
             | some st => decide (now - st.lastSeen ≤ SESSION_TTL_MS)
             | none => true) }

/-- The question dedup cleanup sweep from `src/index.ts` (lines 180-187). -/
def sweepQuestions (now : Nat) (s : AppState) : AppState :=
  { s with notifiedQuestions := s.notifiedQuestions.filter (fun p => decide (now - p.2 ≤ QUESTION_TTL_MS)) }

/-- Events processed by the tracker: session-status deliveries, debounce
    timer expirations, question-tool deliveries, and the two periodic
    sweeps. -/
inductive Ev : Type where
  | status (sid : String) (st : SStatus) (dir : String) (now : Nat) : Ev
  | timerFire (tid : Nat) (now : Nat) : Ev
  | question (sid qstatus : String) (qo : Option String) (dir : String) (now : Nat) : Ev
  | sweepS (now : Nat) : Ev
  | sweepQ (now : Nat) : Ev
deriving DecidableEq

def Ev.isSessionSweep : Ev → Bool
  | .sweepS _ => true
  | _ => false

def step (cfg : OcConfig) (oracle : String → String → Option SessionInfo)
    (e : Ev) (s : AppState) : AppState :=
  match e with
  | .status sid st dir now => handleSessionStatus sid st dir now s
  | .timerFire tid now => handleTimerFire cfg oracle tid now s
  | .question sid qs qo dir now => handleQuestion cfg oracle sid qs qo dir now s
  | .sweepS now => sweepSessions now s
  | .sweepQ now => sweepQuestions now s

def run (cfg : OcConfig) (oracle : String → String → Option SessionInfo)
    (evs : List Ev) (s : AppState) : AppState :=
  evs.foldl (fun s e => step cfg oracle e s) s

/-! Field-projection lemmas: which handler changes which piece of state. -/

@[simp] theorem cancelPending_sessionState (sid : String) (s : AppState) :
    (cancelPending sid s).sessionState = s.sessionState := by
  unfold cancelPending; split <;> rfl

@[simp] theorem cancelPending_knownSubagents (sid : String) (s : AppState) :
    (cancelPending sid s).knownSubagents = s.knownSubagents := by
  unfold cancelPending; split <;> rfl

@[simp] theorem cancelPending_notifiedQuestions (sid : String) (s : AppState) :
    (cancelPending sid s).notifiedQuestions = s.notifiedQuestions := by
  unfold cancelPending; split <;> rfl

@[simp] theorem cancelPending_sentNotifications (sid : String) (s : AppState) :
    (cancelPending sid s).sentNotifications = s.sentNotifications := by
  unfold cancelPending; split <;> rfl

@[simp] theorem cancelPending_scheduleLog (sid : String) (s : AppState) :
    (cancelPending sid s).scheduleLog = s.scheduleLog := by
  unfold cancelPending; split <;> rfl

@[simp] theorem cancelPending_nextTimer (sid : String) (s : AppState) :
    (cancelPending sid s).nextTimer = s.nextTimer := by
  unfold cancelPending; split <;> rfl

@[simp] theorem scheduleTimer_sessionState (sid dir : String) (s : AppState) :
    (scheduleTimer sid dir s).sessionState = s.sessionState := by
  unfold scheduleTimer; split <;> rfl

@[simp] theorem scheduleTimer_knownSubagents (sid dir : String) (s : AppState) :
    (scheduleTimer sid dir s).knownSubagents = s.knownSubagents := by
  unfold scheduleTimer; split <;> rfl

@[simp] theorem scheduleTimer_notifiedQuestions (sid dir : String) (s : AppState) :
    (scheduleTimer sid dir s).notifiedQuestions = s.notifiedQuestions := by
  unfold scheduleTimer; split <;> rfl

@[simp] theorem scheduleTimer_sentNotifications (sid dir : String) (s : AppState) :
    (scheduleTimer sid dir s).sentNotifications = s.sentNotifications := by
  unfold scheduleTimer; split <;> rfl

@[simp] theorem handleSessionStatus_knownSubagents (sid : String) (st : SStatus)
    (dir : String) (now : Nat) (s : AppState) :
    (handleSessionStatus sid st dir now s).knownSubagents = s.knownSubagents := by
  simp only [handleSessionStatus]
  split
  · rfl
  · split
    · simp
    · split <;> simp

@[simp] theorem handleSessionStatus_notifiedQuestions (sid : String) (st : SStatus)
    (dir : String) (now : Nat) (s : AppState) :
    (handleSessionStatus sid st dir now s).notifiedQuestions = s.notifiedQuestions := by
  simp only [handleSessionStatus]
  split
  · rfl
  · split
    · simp
    · split <;> simp

@[simp] theorem handleSessionStatus_sentNotifications (sid : String) (st : SStatus)
    (dir : String) (now : Nat) (s : AppState) :
    (handleSessionStatus sid st dir now s).sentNotifications = s.sentNotifications := by
  simp only [handleSessionStatus]
  split
  · rfl
  · split
    · simp
    · split <;> simp

@[simp] theorem handleSessionStatus_sessionState (sid : String) (st : SStatus)
    (dir : String) (now : Nat) (s : AppState) :
    (handleSessionStatus sid st dir now s).sessionState =
      mset s.sessionState sid ⟨statusTag st, now⟩ := by
  simp only [handleSessionStatus]
  split
  · rfl
  · split
    · simp
    · split <;> simp

@[simp] theorem handleTimerFire_sessionState (cfg : OcConfig)
    (oracle : String → String → Option SessionInfo) (tid now : Nat) (s : AppState) :
    (handleTimerFire cfg oracle tid now s).sessionState = s.sessionState := by
  unfold handleTimerFire
  split
  · rfl
  · dsimp only
    split
    · rfl
    · split
      · rfl
      · split <;> rfl

@[simp] theorem handleTimerFire_notifiedQuestions (cfg : OcConfig)
    (oracle : String → String → Option SessionInfo) (tid now : Nat) (s : AppState) :
    (handleTimerFire cfg oracle tid now s).notifiedQuestions = s.notifiedQuestions := by
  unfold handleTimerFire
  split
  · rfl
  · dsimp only
    split
    · rfl
    · split
      · rfl
      · split <;> rfl

@[simp] theorem handleTimerFire_scheduleLog (cfg : OcConfig)
    (oracle : String → String → Option SessionInfo) (tid now : Nat) (s : AppState) :
    (handleTimerFire cfg oracle tid now s).scheduleLog = s.scheduleLog := by
  unfold handleTimerFire
  split
  · rfl
  · dsimp only
    split
    · rfl
    · split
      · rfl
      · split <;> rfl

@[simp] theorem handleTimerFire_nextTimer (cfg : OcConfig)
    (oracle : String → String → Option SessionInfo) (tid now : Nat) (s : AppState) :
    (handleTimerFire cfg oracle tid now s).nextTimer = s.nextTimer := by
  unfold handleTimerFire
  split
  · rfl
  · dsimp only
    split
    · rfl
    · split
      · rfl
      · split <;> rfl

@[simp] theorem handleQuestion_sessionState (cfg : OcConfig)
    (oracle : String → String → Option SessionInfo) (sid qstatus : String)
    (qo : Option String) (dir : String) (now : Nat) (s : AppState) :
    (handleQuestion cfg oracle sid qstatus qo dir now s).sessionState = s.sessionState := by
  unfold handleQuestion
  split
  · rfl
  · split
    · rfl
    · split
      · rfl
      · split <;> rfl

@[simp] theorem handleQuestion_pending (cfg : OcConfig)
    (oracle : String → String → Option SessionInfo) (sid qstatus : String)
    (qo : Option String) (dir : String) (now : Nat) (s : AppState) :
    (handleQuestion cfg oracle sid qstatus qo dir now s).pending = s.pending := by
  unfold handleQuestion
  split
  · rfl
  · split
    · rfl
    · split
      · rfl
      · split <;> rfl

@[simp] theorem handleQuestion_liveTimers (cfg : OcConfig)
    (oracle : String → String → Option SessionInfo) (sid qstatus : String)
    (qo : Option String) (dir : String) (now : Nat) (s : AppState) :
    (handleQuestion cfg oracle sid qstatus qo dir now s).liveTimers = s.liveTimers := by
  unfold handleQuestion
  split
  · rfl
  · split
    · rfl
    · split
      · rfl
      · split <;> rfl

@[simp] theorem handleQuestion_scheduleLog (cfg : OcConfig)
    (oracle : String → String → Option SessionInfo) (sid qstatus : String)
    (qo : Option String) (dir : String) (now : Nat) (s : AppState) :
    (handleQuestion cfg oracle sid qstatus qo dir now s).scheduleLog = s.scheduleLog := by
  unfold handleQuestion
  split
  · rfl
  · split
    · rfl
    · split
      · rfl
      · split <;> rfl

@[simp] theorem handleQuestion_nextTimer (cfg : OcConfig)
    (oracle : String → String → Option SessionInfo) (sid qstatus : String)
    (qo : Option String) (dir : String) (now : Nat) (s : AppState) :
    (handleQuestion cfg oracle sid qstatus qo dir now s).nextTimer = s.nextTimer := by
  unfold handleQuestion
  split
  · rfl
  · split
    · rfl
    · split
      · rfl
      · split <;> rfl

@[simp] theorem sweepSessions_pending (now : Nat) (s : AppState) :
    (sweepSessions now s).pending = s.pending := rfl

@[simp] theorem sweepSessions_liveTimers (now : Nat) (s : AppState) :
    (sweepSessions now s).liveTimers = s.liveTimers := rfl

@[simp] theorem sweepSessions_notifiedQuestions (now : Nat) (s : AppState) :
    (sweepSessions now s).notifiedQuestions = s.notifiedQuestions := rfl

@[simp] theorem sweepSessions_sentNotifications (now : Nat) (s : AppState) :
    (sweepSessions now s).sentNotifications = s.sentNotifications := rfl

@[simp] theorem sweepSessions_scheduleLog (now : Nat) (s : AppState) :
    (sweepSessions now s).scheduleLog = s.scheduleLog := rfl

@[simp] theorem sweepSessions_nextTimer (now : Nat) (s : AppState) :
    (sweepSessions now s).nextTimer = s.nextTimer := rfl

@[simp] theorem sweepQuestions_sessionState (now : Nat) (s : AppState) :
    (sweepQuestions now s).sessionState = s.sessionState := rfl

@[simp] theorem sweepQuestions_pending (now : Nat) (s : AppState) :
    (sweepQuestions now s).pending = s.pending := rfl

@[simp] theorem sweepQuestions_liveTimers (now : Nat) (s : AppState) :
    (sweepQuestions now s).liveTimers = s.liveTimers := rfl

@[simp] theorem sweepQuestions_knownSubagents (now : Nat) (s : AppState) :
    (sweepQuestions now s).knownSubagents = s.knownSubagents := rfl

@[simp] theorem sweepQuestions_sentNotifications (now : Nat) (s : AppState) :
    (sweepQuestions now s).sentNotifications = s.sentNotifications := rfl

@[simp] theorem sweepQuestions_scheduleLog (now : Nat) (s : AppState) :
    (sweepQuestions now s).scheduleLog = s.scheduleLog := rfl

@[simp] theorem sweepQuestions_nextTimer (now : Nat) (s : AppState) :
    (sweepQuestions now s).nextTimer = s.nextTimer := rfl

theorem run_nil (cfg : OcConfig) (oracle : String → String → Option SessionInfo)
    (s : AppState) : run cfg oracle [] s = s := rfl

theorem run_cons (cfg : OcConfig) (oracle : String → String → Option SessionInfo)
    (e : Ev) (evs : List Ev) (s : AppState) :
    run cfg oracle (e :: evs) s = run cfg oracle evs (step cfg oracle e s) := rfl

/-! Key-uniqueness facts about the association-list operations. -/

theorem keysNodup_mdel {α : Type} (l : List (String × α)) (k : String)
    (h : (l.map (·.1)).Nodup) : ((mdel l k).map (·.1)).Nodup := by
  have hs : (mdel l k).Sublist l := List.filter_sublist l
  exact (hs.map (·.1)).nodup h

theorem not_mem_keys_mdel {α : Type} (l : List (String × α)) (k : String) :
    k ∉ (mdel l k).map (·.1) := by
  intro hm
  rcases List.mem_map.mp hm with ⟨p, hp, hk⟩
  rcases List.mem_filter.mp hp with ⟨_, hpk⟩
  rw [hk] at hpk
  simp at hpk

theorem keysNodup_mset {α : Type} (l : List (String × α)) (k : String) (v : α)
    (h : (l.map (·.1)).Nodup) : ((mset l k v).map (·.1)).Nodup := by
  simp only [mset, List.map_cons]
  exact List.nodup_cons.mpr ⟨not_mem_keys_mdel l k, keysNodup_mdel l k h⟩

/-! The timer bookkeeping invariant: every live timer is registered in the
    pending map under its session, timer identifiers are fresh and distinct,
    and both collections have no duplicate keys. -/

def GoodTimers (s : AppState) : Prop :=
  (∀ e ∈ s.liveTimers, mget s.pending e.2.1 = some e.1) ∧
  (∀ e ∈ s.liveTimers, e.1 < s.nextTimer) ∧
  (s.liveTimers.map (·.1)).Nodup ∧
  (s.pending.map (·.1)).Nodup

theorem goodTimers_init : GoodTimers initState := by
  refine ⟨?_, ?_, ?_, ?_⟩ <;> simp [initState]

theorem goodTimers_cancelPending (sid : String) (s : AppState) (h : GoodTimers s) :
    GoodTimers (cancelPending sid s) := by
  obtain ⟨h1, h2, h3, h4⟩ := h
  unfold cancelPending
  split
  case h_1 tid heq =>
    refine ⟨?_, ?_, ?_, ?_⟩
    · intro e he
      have hmem := List.mem_filter.mp he
      have hne : e.1 ≠ tid := by
        have := hmem.2; simpa using this
      rw [mget_mdel]
      by_cases hk : e.2.1 = sid
      · exfalso
        have := h1 e hmem.1
        rw [hk, heq] at this
        exact hne (Option.some.inj this).symm
      · simp only [if_neg hk]
        exact h1 e hmem.1
    · intro e he
      exact h2 e (List.mem_filter.mp he).1
    · exact ((List.filter_sublist s.liveTimers).map (·.1)).nodup h3
    · exact keysNodup_mdel s.pending sid h4
  case h_2 => exact ⟨h1, h2, h3, h4⟩

theorem goodTimers_scheduleTimer (sid dir : String) (s : AppState) (h : GoodTimers s) :
    GoodTimers (scheduleTimer sid dir s) := by
  obtain ⟨h1, h2, h3, h4⟩ := h
  unfold scheduleTimer
  split
  case isTrue => exact ⟨h1, h2, h3, h4⟩
  case isFalse hns =>
    have hnone : mget s.pending sid = none := by
      cases hmp : mget s.pending sid with
      | none => rfl
      | some tid => rw [hmp] at hns; simp at hns
    refine ⟨?_, ?_, ?_, ?_⟩
    · intro e he
      rcases List.mem_cons.mp he with rfl | hold
      · exact mget_mset_self _ _ _
      · have hk : e.2.1 ≠ sid := by
          intro hk
          have := h1 e hold
          rw [hk, hnone] at this
          exact Option.noConfusion this
        rw [mget_mset_ne _ _ _ _ hk]
        exact h1 e hold
    · intro e he
      rcases List.mem_cons.mp he with rfl | hold
      · exact Nat.lt_succ_self _
      · exact Nat.lt_succ_of_lt (h2 e hold)
    · simp only [List.map_cons]
      refine List.nodup_cons.mpr ⟨?_, h3⟩
      intro hm
      rcases List.mem_map.mp hm with ⟨e, he, hte⟩
      exact absurd hte (Nat.ne_of_gt (h2 e he)).symm
    · exact keysNodup_mset s.pending sid s.nextTimer h4

theorem goodTimers_handleSessionStatus (sid : String) (st : SStatus) (dir : String)
    (now : Nat) (s : AppState) (h : GoodTimers s) :
    GoodTimers (handleSessionStatus sid st dir now s) := by
  have hmid : GoodTimers { s with sessionState := mset s.sessionState sid ⟨statusTag st, now⟩ } := h
  simp only [handleSessionStatus]
  split
  · exact hmid
  · split
    · exact goodTimers_cancelPending sid _ hmid
    · split
      · exact goodTimers_scheduleTimer sid dir _ hmid
      · exact hmid

theorem goodTimers_handleTimerFire (cfg : OcConfig)
    (oracle : String → String → Option SessionInfo) (tid now : Nat) (s : AppState)
    (h : GoodTimers s) : GoodTimers (handleTimerFire cfg oracle tid now s) := by
  obtain ⟨h1, h2, h3, h4⟩ := h
  unfold handleTimerFire
  split
  case h_1 => exact ⟨h1, h2, h3, h4⟩
  case h_2 t0 sid dir heq =>
    have hf : t0 = tid := by
      have := List.find?_some heq
      simpa using this
    have hfm : (t0, sid, dir) ∈ s.liveTimers := List.mem_of_find?_eq_some heq
    have hpend : mget s.pending sid = some tid := by
      have := h1 _ hfm
      rw [hf] at this
      exact this
    have hcore : GoodTimers
        { s with liveTimers := s.liveTimers.filter (fun e => e.1 != tid)
                 pending := mdel s.pending sid } := by
      refine ⟨?_, ?_, ?_, ?_⟩
      · intro e he
        have hmem := List.mem_filter.mp he
        have hne : e.1 ≠ tid := by have := hmem.2; simpa using this
        rw [mget_mdel]
        by_cases hk : e.2.1 = sid
        · exfalso
          have := h1 e hmem.1
          rw [hk, hpend] at this
          exact hne (Option.some.inj this).symm
        · simp only [if_neg hk]
          exact h1 e hmem.1
      · intro e he
        exact h2 e (List.mem_filter.mp he).1
      · exact ((List.filter_sublist s.liveTimers).map (·.1)).nodup h3
      · exact keysNodup_mdel s.pending sid h4
    dsimp only
    split
    · exact hcore
    · split
      · exact hcore
      · split
        · exact hcore
        · exact hcore

theorem goodTimers_step (cfg : OcConfig) (oracle : String → String → Option SessionInfo)
    (e : Ev) (s : AppState) (h : GoodTimers s) : GoodTimers (step cfg oracle e s) := by
  cases e with
  | status sid st dir now => exact goodTimers_handleSessionStatus sid st dir now s h
  | timerFire tid now => exact goodTimers_handleTimerFire cfg oracle tid now s h
  | question sid qs qo dir now =>
    show GoodTimers (handleQuestion cfg oracle sid qs qo dir now s)
    unfold GoodTimers
    rw [handleQuestion_pending, handleQuestion_liveTimers, handleQuestion_nextTimer]
    exact h
  | sweepS now => exact h
  | sweepQ now => exact h

theorem goodTimers_run (cfg : OcConfig) (oracle : String → String → Option SessionInfo)
    (evs : List Ev) (s : AppState) (h : GoodTimers s) : GoodTimers (run cfg oracle evs s) := by
  induction evs generalizing s with
  | nil => exact h
  | cons e evs ih => exact ih _ (goodTimers_step cfg oracle e s h)

/-! Lookup behaviour of the cancellation and scheduling branches. -/

theorem cancelPending_mget_self (sid : String) (s : AppState) :
    mget (cancelPending sid s).pending sid = none := by
  unfold cancelPending
  split
  case h_1 tid heq => simp [mget_mdel]
  case h_2 heq => exact heq

theorem cancelPending_mget_ne (sid : String) (s : AppState) (k : String) (h : k ≠ sid) :
    mget (cancelPending sid s).pending k = mget s.pending k := by
  unfold cancelPending
  split
  case h_1 tid heq => simp [mget_mdel, h]
  case h_2 heq => rfl

theorem scheduleTimer_mget_ne (sid dir : String) (s : AppState) (k : String) (h : k ≠ sid) :
    mget (scheduleTimer sid dir s).pending k = mget s.pending k := by
  unfold scheduleTimer
  split
  · rfl
  · exact mget_mset_ne _ _ _ _ h

/-! The pending-timer / tracked-status invariant: outside the known-subagent
    set, a pending debounce timer implies the tracked status is `idle`. -/

def PendIdle (s : AppState) : Prop :=
  ∀ sid tid, mget s.pending sid = some tid →
    s.knownSubagents.contains sid = false → statusOf s sid = some "idle"

theorem pendIdle_init : PendIdle initState := by
  intro sid tid hp _
  simp [initState, mget] at hp

theorem statusOf_mset_self (s : AppState) (sid tag : String) (now : Nat) :
    statusOf { s with sessionState := mset s.sessionState sid ⟨tag, now⟩ } sid = some tag := by
  simp [statusOf, mget_mset_self]

theorem statusOf_mset_ne (s : AppState) (sid tag : String) (now : Nat) (k : String)
    (h : k ≠ sid) :
    statusOf { s with sessionState := mset s.sessionState sid ⟨tag, now⟩ } k = statusOf s k := by
  simp [statusOf, mget_mset_ne _ _ _ _ h]

theorem pendIdle_handleSessionStatus (sid : String) (st : SStatus) (dir : String) (now : Nat)
    (s : AppState) (h : PendIdle s) : PendIdle (handleSessionStatus sid st dir now s) := by
  simp only [handleSessionStatus]
  split
  case isTrue hkn =>
    intro k tid hp hk
    by_cases hks : k = sid
    · subst hks
      have hk' : s.knownSubagents.contains k = false := hk
      have hkn' : s.knownSubagents.contains k = true := hkn
      exact Bool.noConfusion (hk'.symm.trans hkn')
    · rw [statusOf_mset_ne _ _ _ _ _ hks]
      exact h k tid hp hk
  case isFalse hkn =>
    split
    case isTrue hni =>
      intro k tid hp hk
      by_cases hks : k = sid
      · subst hks
        rw [cancelPending_mget_self] at hp
        exact Option.noConfusion hp
      · rw [cancelPending_mget_ne _ _ _ hks] at hp
        have : statusOf (cancelPending sid
            { s with sessionState := mset s.sessionState sid ⟨statusTag st, now⟩ }) k
            = statusOf s k := by
          simp only [statusOf, cancelPending_sessionState]
          rw [show mget (mset s.sessionState sid ⟨statusTag st, now⟩) k
              = mget s.sessionState k from mget_mset_ne _ _ _ _ hks]
        rw [this]
        rw [cancelPending_knownSubagents] at hk
        exact h k tid hp hk
    case isFalse hni =>
      have hidle : statusTag st = "idle" := by
        by_contra hc
        exact hni hc
      split
      case isTrue hprev =>
        intro k tid hp hk
        by_cases hks : k = sid
        · subst hks
          have : statusOf (scheduleTimer k dir
              { s with sessionState := mset s.sessionState k ⟨statusTag st, now⟩ }) k
              = some (statusTag st) := by
            simp only [statusOf, scheduleTimer_sessionState]
            simp [mget_mset_self]
          rw [this, hidle]
        · rw [scheduleTimer_mget_ne _ _ _ _ hks] at hp
          have : statusOf (scheduleTimer sid dir
              { s with sessionState := mset s.sessionState sid ⟨statusTag st, now⟩ }) k
              = statusOf s k := by
            simp only [statusOf, scheduleTimer_sessionState]
            rw [show mget (mset s.sessionState sid ⟨statusTag st, now⟩) k
                = mget s.sessionState k from mget_mset_ne _ _ _ _ hks]
          rw [this]
          rw [scheduleTimer_knownSubagents] at hk
          exact h k tid hp hk
      case isFalse hprev =>
        intro k tid hp hk
        by_cases hks : k = sid
        · subst hks
          rw [statusOf_mset_self, hidle]
        · rw [statusOf_mset_ne _ _ _ _ _ hks]
          exact h k tid hp hk

theorem pendIdle_handleTimerFire (cfg : OcConfig)
    (oracle : String → String → Option SessionInfo) (tid now : Nat) (s : AppState)
    (h : PendIdle s) : PendIdle (handleTimerFire cfg oracle tid now s) := by
  unfold handleTimerFire
  split
  case h_1 => exact h
  case h_2 t0 sid dir heq =>
    dsimp only
    have hcore : ∀ k ktid, mget (mdel s.pending sid) k = some ktid →
        s.knownSubagents.contains k = false → statusOf s k = some "idle" := by
      intro k ktid hp hk
      rw [mget_mdel] at hp
      by_cases hks : k = sid
      · rw [if_pos hks] at hp
        exact Option.noConfusion hp
      · rw [if_neg hks] at hp
        exact h k ktid hp hk
    split
    case h_1 => exact fun k ktid hp hk => hcore k ktid hp hk
    case h_2 st' hst =>
      split
      case isTrue => exact fun k ktid hp hk => hcore k ktid hp hk
      case isFalse =>
        split
        case isTrue =>
          intro k ktid hp hk
          by_cases hks : k = sid
          · subst hks
            rw [contains_sadd_self] at hk
            exact Bool.noConfusion hk
          · rw [contains_sadd_eq _ _ _ hks] at hk
            exact hcore k ktid hp hk
        case isFalse => exact fun k ktid hp hk => hcore k ktid hp hk

theorem pendIdle_handleQuestion (cfg : OcConfig)
    (oracle : String → String → Option SessionInfo) (sid qstatus : String)
    (qo : Option String) (dir : String) (now : Nat) (s : AppState)
    (h : PendIdle s) : PendIdle (handleQuestion cfg oracle sid qstatus qo dir now s) := by
  unfold handleQuestion
  split
  · exact h
  · split
    · exact h
    · split
      · exact h
      · split
        case isTrue =>
          intro k ktid hp hk
          by_cases hks : k = sid
          · subst hks
            rw [contains_sadd_self] at hk
            exact Bool.noConfusion hk
          · rw [contains_sadd_eq _ _ _ hks] at hk
            exact h k ktid hp hk
        case isFalse => exact fun k ktid hp hk => h k ktid hp hk

theorem pendIdle_step (cfg : OcConfig) (oracle : String → String → Option SessionInfo)
    (e : Ev) (s : AppState) (hns : e.isSessionSweep = false) (h : PendIdle s) :
    PendIdle (step cfg oracle e s) := by
  cases e with
  | status sid st dir now => exact pendIdle_handleSessionStatus sid st dir now s h
  | timerFire tid now => exact pendIdle_handleTimerFire cfg oracle tid now s h
  | question sid qs qo dir now => exact pendIdle_handleQuestion cfg oracle sid qs qo dir now s h
  | sweepS now => exact absurd hns (by simp [Ev.isSessionSweep])
  | sweepQ now => exact h

theorem pendIdle_run (cfg : OcConfig) (oracle : String → String → Option SessionInfo)
    (evs : List Ev) (s : AppState) (hns : ∀ e ∈ evs, e.isSessionSweep = false)
    (h : PendIdle s) : PendIdle (run cfg oracle evs s) := by
  induction evs generalizing s with
  | nil => exact h
  | cons e evs ih =>
    exact ih (step cfg oracle e s)
      (fun e' he' => hns e' (List.mem_cons_of_mem e he'))
      (pendIdle_step cfg oracle e s (hns e (List.mem_cons_self e evs)) h)

/-! Concrete configurations and oracles used in witnesses and
    counterexamples. -/

def wcfg : OcConfig := { desktopBaseUrl := "https://oc.example.com", debounceMs := 3000 }

/-- Oracle whose metadata lookups always report a parent session. -/
def oracleSub : String → String → Option SessionInfo :=
  fun sid _ => some { id := sid, parentSessionID := some "parent-1", title := "t", projectID := "p" }

/-- Oracle whose metadata lookups always report a top-level session. -/
def oracleTop : String → String → Option SessionInfo :=
  fun sid _ => some { id := sid, parentSessionID := none, title := "t", projectID := "p" }

/-- C3: across every interleaving of events from the initial state, the
    pending-notification map has at most one entry per session identifier, at
    most one live debounce timer exists per session identifier, and a second
    idle observation for a session that already has a pending timer starts no
    second timer (the live-timer set is unchanged). -/
theorem claim_c3_at_most_one_pending_timer (cfg : OcConfig)
    (oracle : String → String → Option SessionInfo) (evs : List Ev) :
    (∀ p₁ ∈ (run cfg oracle evs initState).pending,
       ∀ p₂ ∈ (run cfg oracle evs initState).pending, p₁.1 = p₂.1 → p₁ = p₂) ∧
    (∀ e₁ ∈ (run cfg oracle evs initState).liveTimers,
       ∀ e₂ ∈ (run cfg oracle evs initState).liveTimers, e₁.2.1 = e₂.2.1 → e₁ = e₂) ∧
    (∀ (sid : String) (st : SStatus) (dir : String) (now : Nat),
       statusTag st = "idle" →
       (mget (run cfg oracle evs initState).pending sid).isSome = true →
       (step cfg oracle (Ev.status sid st dir now) (run cfg oracle evs initState)).liveTimers
         = (run cfg oracle evs initState).liveTimers) := by
  obtain ⟨h1, h2, h3, h4⟩ := goodTimers_run cfg oracle evs initState goodTimers_init
  refine ⟨?_, ?_, ?_⟩
  · intro p₁ hp₁ p₂ hp₂ hk
    exact List.inj_on_of_nodup_map h4 hp₁ hp₂ hk
  · intro e₁ he₁ e₂ he₂ hs
    have htid : e₁.1 = e₂.1 := by
      have q1 := h1 e₁ he₁
      have q2 := h1 e₂ he₂
      rw [hs, q2] at q1
      exact (Option.some.inj q1).symm
    exact List.inj_on_of_nodup_map h3 he₁ he₂ htid
  · intro sid st dir now hidle hsome
    simp only [step, handleSessionStatus]
    split
    · rfl
    · rw [if_neg (by simp [hidle])]
      split
      · unfold scheduleTimer
        rw [if_pos hsome]
      · rfl

/-- C3 witness: the uniqueness conclusions evaluated on a concrete run in
    which two sessions schedule timers. -/
theorem claim_c3_witness :
    (∀ e₁ ∈ (run wcfg oracleTop
        [Ev.status "a" SStatus.busy "/p" 0, Ev.status "a" SStatus.idle "/p" 1,
         Ev.status "b" SStatus.busy "/p" 2, Ev.status "b" SStatus.idle "/p" 3]
        initState).liveTimers,
       ∀ e₂ ∈ (run wcfg oracleTop
        [Ev.status "a" SStatus.busy "/p" 0, Ev.status "a" SStatus.idle "/p" 1,
         Ev.status "b" SStatus.busy "/p" 2, Ev.status "b" SStatus.idle "/p" 3]
        initState).liveTimers, e₁.2.1 = e₂.2.1 → e₁ = e₂) :=
  (claim_c3_at_most_one_pending_timer wcfg oracleTop
    [Ev.status "a" SStatus.busy "/p" 0, Ev.status "a" SStatus.idle "/p" 1,
     Ev.status "b" SStatus.busy "/p" 2, Ev.status "b" SStatus.idle "/p" 3]).2.1

/-- C4 counterexample: after `busy`, `idle` (timer scheduled), a question-tool
    event whose metadata lookup reports a parent (the session is marked a
    known subagent while its timer is pending), and a further `busy`
    observation (which returns early for known subagents without cancelling),
    the session still has a pending timer while its tracked status is
    `busy`, not `idle`. -/
theorem claim_c4_counterexample :
    mget (run wcfg oracleSub
      [Ev.status "s1" SStatus.busy "/p" 1, Ev.status "s1" SStatus.idle "/p" 2,
       Ev.question "s1" "running" (some "q") "/p" 3, Ev.status "s1" SStatus.busy "/p" 4]
      initState).pending "s1" = some 0 ∧
    (run wcfg oracleSub
      [Ev.status "s1" SStatus.busy "/p" 1, Ev.status "s1" SStatus.idle "/p" 2,
       Ev.question "s1" "running" (some "q") "/p" 3, Ev.status "s1" SStatus.busy "/p" 4]
      initState).knownSubagents.contains "s1" = true ∧
    statusOf (run wcfg oracleSub
      [Ev.status "s1" SStatus.busy "/p" 1, Ev.status "s1" SStatus.idle "/p" 2,
       Ev.question "s1" "running" (some "q") "/p" 3, Ev.status "s1" SStatus.busy "/p" 4]
      initState) "s1" = some "busy" := by
  refine ⟨by decide, by decide, by decide⟩

/-- C4 (amended): at every state reachable by session-status, question-tool
    and timer events (no reclamation sweep), a pending debounce timer for a
    session identifier that is NOT in the known-subagent set implies the
    tracked status stored for that identifier is `idle`. For sessions marked
    as known subagents the implication fails (see the counterexample). -/
theorem claim_c4_amended_timer_implies_idle (cfg : OcConfig)
    (oracle : String → String → Option SessionInfo) (evs : List Ev)
    (hns : ∀ e ∈ evs, e.isSessionSweep = false) (sid : String) (tid : Nat)
    (hp : mget (run cfg oracle evs initState).pending sid = some tid)
    (hk : (run cfg oracle evs initState).knownSubagents.contains sid = false) :
    statusOf (run cfg oracle evs initState) sid = some "idle" :=
  pendIdle_run cfg oracle evs initState hns pendIdle_init sid tid hp hk

/-- C4 witness: the amended invariant applied after a concrete busy-idle
    run. -/
theorem claim_c4_witness :
    (∀ e ∈ ([Ev.status "s1" SStatus.busy "/p" 1, Ev.status "s1" SStatus.idle "/p" 2] : List Ev),
       e.isSessionSweep = false) ∧
    statusOf (run wcfg oracleTop
      [Ev.status "s1" SStatus.busy "/p" 1, Ev.status "s1" SStatus.idle "/p" 2]
      initState) "s1" = some "idle" :=
  ⟨by decide,
   claim_c4_amended_timer_implies_idle wcfg oracleTop
     [Ev.status "s1" SStatus.busy "/p" 1, Ev.status "s1" SStatus.idle "/p" 2]
     (by decide) "s1" 0 (by decide) (by decide)⟩

/-- C2 counterexample: a session with a pending debounce timer that has been
    marked a known subagent (by a question-tool event) receives a non-idle
    (`retry`) observation, and the timer is neither cancelled nor removed:
    the pending entry and the live timer survive. -/
theorem claim_c2_counterexample :
    mget (run wcfg oracleSub
      [Ev.status "s2" SStatus.busy "/p" 1, Ev.status "s2" SStatus.idle "/p" 2,
       Ev.question "s2" "running" (some "q") "/p" 3]
      initState).pending "s2" = some 0 ∧
    statusTag (SStatus.retry 1 "m" 9) ≠ "idle" ∧
    mget (run wcfg oracleSub
      [Ev.status "s2" SStatus.busy "/p" 1, Ev.status "s2" SStatus.idle "/p" 2,
       Ev.question "s2" "running" (some "q") "/p" 3,
       Ev.status "s2" (SStatus.retry 1 "m" 9) "/p" 4]
      initState).pending "s2" = some 0 ∧
    (0, "s2", "/p") ∈ (run wcfg oracleSub
      [Ev.status "s2" SStatus.busy "/p" 1, Ev.status "s2" SStatus.idle "/p" 2,
       Ev.question "s2" "running" (some "q") "/p" 3,
       Ev.status "s2" (SStatus.retry 1 "m" 9) "/p" 4]
      initState).liveTimers := by
  refine ⟨by decide, by decide, by decide, by decide⟩

/-- C2 (amended): for every session identifier NOT in the known-subagent set
    that has a pending debounce timer, a non-idle status observation for that
    identifier cancels and removes exactly that timer without it firing
    (firing the cancelled timer afterwards is a no-op), leaves every other
    session's pending entry untouched, and dispatches no notification. -/
theorem claim_c2_amended_nonidle_cancels (cfg : OcConfig)
    (oracle : String → String → Option SessionInfo) (s : AppState) (sid : String)
    (tid : Nat) (st : SStatus) (dir : String) (now : Nat)
    (hp : mget s.pending sid = some tid)
    (hk : s.knownSubagents.contains sid = false)
    (hni : statusTag st ≠ "idle") :
    mget (step cfg oracle (Ev.status sid st dir now) s).pending sid = none ∧
    (∀ k, k ≠ sid →
       mget (step cfg oracle (Ev.status sid st dir now) s).pending k = mget s.pending k) ∧
    (step cfg oracle (Ev.status sid st dir now) s).liveTimers
      = s.liveTimers.filter (fun e => e.1 != tid) ∧
    (step cfg oracle (Ev.status sid st dir now) s).sentNotifications = s.sentNotifications ∧
    (∀ now₂ : Nat,
       step cfg oracle (Ev.timerFire tid now₂) (step cfg oracle (Ev.status sid st dir now) s)
         = step cfg oracle (Ev.status sid st dir now) s) := by
  have hshape : step cfg oracle (Ev.status sid st dir now) s =
      { s with sessionState := mset s.sessionState sid ⟨statusTag st, now⟩
               pending := mdel s.pending sid
               liveTimers := s.liveTimers.filter (fun e => e.1 != tid) } := by
    show handleSessionStatus sid st dir now s = _
    simp only [handleSessionStatus]
    rw [if_neg (by
      intro hcontra
      have hx : s.knownSubagents.contains sid = true := hcontra
      rw [hk] at hx
      exact Bool.noConfusion hx), if_pos hni]
    unfold cancelPending
    split
    case h_1 tid' heq =>
      have : tid' = tid := by
        have hps : mget s.pending sid = some tid' := heq
        rw [hp] at hps
        exact (Option.some.inj hps).symm
      rw [this]
    case h_2 heq =>
      have hps : mget s.pending sid = none := heq
      rw [hp] at hps
      exact Option.noConfusion hps
  rw [hshape]
  refine ⟨by simp [mget_mdel], ?_, rfl, rfl, ?_⟩
  · intro k hkne
    simp [mget_mdel, hkne]
  · intro now₂
    show handleTimerFire cfg oracle tid now₂ _ = _
    unfold handleTimerFire
    have hfind : (s.liveTimers.filter (fun e => e.1 != tid)).find? (fun e => e.1 == tid)
        = none := by
      rw [List.find?_eq_none]
      intro e he
      have hne := (List.mem_filter.mp he).2
      simpa using hne
    rw [show ({ s with sessionState := mset s.sessionState sid ⟨statusTag st, now⟩
                       pending := mdel s.pending sid
                       liveTimers := s.liveTimers.filter (fun e => e.1 != tid) }
          : AppState).liveTimers = s.liveTimers.filter (fun e => e.1 != tid) from rfl]
    rw [hfind]

/-! C1: a timer is scheduled for a single-session observation sequence
    exactly when a non-idle observation is immediately followed by an idle
    observation. -/

/-- Status-observation deliveries for a single session identifier. -/
def statusEvents (sid dir : String) (obs : List SStatus) : List Ev :=
  obs.map (fun st => Ev.status sid st dir 0)

/-- Specification-side scheduling predicate: scanning the observation list
    with the previously stored status tag, does the handler's idle-transition
    guard fire at some observation? -/
def schedPred : Option String → List SStatus → Bool
  | _, [] => false
  | prev, c :: rest =>
    (prevTruthyNonIdle prev && (statusTag c == "idle")) || schedPred (some (statusTag c)) rest

theorem prevTruthy_some_tag (a : SStatus) :
    prevTruthyNonIdle (some (statusTag a)) = (statusTag a != "idle") := by
  cases a <;> simp [prevTruthyNonIdle, statusTag]

theorem statusOf_handleSessionStatus_self (sid : String) (c : SStatus) (dir : String)
    (now : Nat) (s : AppState) :
    statusOf (handleSessionStatus sid c dir now s) sid = some (statusTag c) := by
  simp [statusOf, handleSessionStatus_sessionState, mget_mset_self]

theorem schedLog_step_le (cfg : OcConfig) (oracle : String → String → Option SessionInfo)
    (e : Ev) (s : AppState) :
    s.scheduleLog.length ≤ (step cfg oracle e s).scheduleLog.length := by
  cases e with
  | status sid st dir now =>
    show s.scheduleLog.length ≤ (handleSessionStatus sid st dir now s).scheduleLog.length
    simp only [handleSessionStatus]
    split
    · exact Nat.le_refl _
    · split
      · rw [cancelPending_scheduleLog]
      · split
        · unfold scheduleTimer
          split
          · exact Nat.le_refl _
          · simp
        · exact Nat.le_refl _
  | timerFire tid now =>
    show s.scheduleLog.length ≤ (handleTimerFire cfg oracle tid now s).scheduleLog.length
    rw [handleTimerFire_scheduleLog]
  | question sid qs qo dir now =>
    show s.scheduleLog.length ≤ (handleQuestion cfg oracle sid qs qo dir now s).scheduleLog.length
    rw [handleQuestion_scheduleLog]
  | sweepS now => exact Nat.le_refl _
  | sweepQ now => exact Nat.le_refl _

theorem schedLog_run_le (cfg : OcConfig) (oracle : String → String → Option SessionInfo)
    (evs : List Ev) (s : AppState) :
    s.scheduleLog.length ≤ (run cfg oracle evs s).scheduleLog.length := by
  induction evs generalizing s with
  | nil => exact Nat.le_refl _
  | cons e evs ih =>
    exact Nat.le_trans (schedLog_step_le cfg oracle e s) (ih (step cfg oracle e s))

theorem handleSessionStatus_scheduleLog_char (sid : String) (c : SStatus) (dir : String)
    (now : Nat) (s : AppState) (hk : s.knownSubagents.contains sid = false)
    (hpend : ∀ tid, mget s.pending sid = some tid → statusOf s sid = some "idle") :
    (handleSessionStatus sid c dir now s).scheduleLog =
      if (prevTruthyNonIdle (statusOf s sid) && (statusTag c == "idle")) = true
      then s.scheduleLog ++ [sid] else s.scheduleLog := by
  simp only [handleSessionStatus]
  rw [if_neg (by
    intro hcontra
    have hx : s.knownSubagents.contains sid = true := hcontra
    rw [hk] at hx
    exact Bool.noConfusion hx)]
  by_cases hni : statusTag c ≠ "idle"
  · rw [if_pos hni, cancelPending_scheduleLog]
    rw [if_neg (by simp [hni])]
  · rw [if_neg hni]
    have hidle : statusTag c = "idle" := not_not.mp hni
    by_cases hprev : prevTruthyNonIdle (statusOf s sid) = true
    · rw [if_pos hprev]
      unfold scheduleTimer
      have hnone : mget s.pending sid = none := by
        cases hmp : mget s.pending sid with
        | none => rfl
        | some tid =>
          have hio := hpend tid hmp
          rw [hio] at hprev
          simp [prevTruthyNonIdle] at hprev
      rw [if_neg (by simp [hnone])]
      rw [if_pos (by simp [hprev, hidle])]
    · rw [if_neg hprev]
      rw [if_neg (by simp [hprev])]

theorem pendAtSid_handleSessionStatus (sid : String) (c : SStatus) (dir : String)
    (now : Nat) (s : AppState) (hk : s.knownSubagents.contains sid = false) :
    ∀ tid, mget (handleSessionStatus sid c dir now s).pending sid = some tid →
      statusOf (handleSessionStatus sid c dir now s) sid = some "idle" := by
  intro tid hp
  simp only [handleSessionStatus] at hp ⊢
  rw [if_neg (by
    intro hcontra
    have hx : s.knownSubagents.contains sid = true := hcontra
    rw [hk] at hx
    exact Bool.noConfusion hx)] at hp ⊢
  by_cases hni : statusTag c ≠ "idle"
  · rw [if_pos hni] at hp
    rw [cancelPending_mget_self] at hp
    exact Option.noConfusion hp
  · rw [if_neg hni] at hp ⊢
    have hidle : statusTag c = "idle" := not_not.mp hni
    by_cases hprev : prevTruthyNonIdle (statusOf s sid) = true
    · rw [if_pos hprev] at hp ⊢
      simp only [statusOf, scheduleTimer_sessionState]
      rw [show mget (mset s.sessionState sid ⟨statusTag c, now⟩) sid
          = some ⟨statusTag c, now⟩ from mget_mset_self _ _ _]
      simp [hidle]
    · rw [if_neg hprev] at hp ⊢
      rw [statusOf_mset_self, hidle]

theorem schedPred_statusRun (cfg : OcConfig) (oracle : String → String → Option SessionInfo)
    (sid dir : String) :
    ∀ (obs : List SStatus) (s : AppState),
      s.knownSubagents.contains sid = false →
      (∀ tid, mget s.pending sid = some tid → statusOf s sid = some "idle") →
      ((run cfg oracle (statusEvents sid dir obs) s).scheduleLog.length > s.scheduleLog.length
        ↔ schedPred (statusOf s sid) obs = true) := by
  intro obs
  induction obs with
  | nil =>
    intro s hk hpend
    simp [statusEvents, run, schedPred]
  | cons c rest ih =>
    intro s hk hpend
    rw [show statusEvents sid dir (c :: rest)
        = Ev.status sid c dir 0 :: statusEvents sid dir rest from rfl, run_cons]
    have hchar : (handleSessionStatus sid c dir 0 s).scheduleLog =
        if (prevTruthyNonIdle (statusOf s sid) && (statusTag c == "idle")) = true
        then s.scheduleLog ++ [sid] else s.scheduleLog :=
      handleSessionStatus_scheduleLog_char sid c dir 0 s hk hpend
    have hk' : (handleSessionStatus sid c dir 0 s).knownSubagents.contains sid = false := by
      rw [handleSessionStatus_knownSubagents]
      exact hk
    have hpend' := pendAtSid_handleSessionStatus sid c dir 0 s hk
    have hstat' := statusOf_handleSessionStatus_self sid c dir 0 s
    have ihs := ih (handleSessionStatus sid c dir 0 s) hk' hpend'
    rw [hstat'] at ihs
    by_cases hcond : (prevTruthyNonIdle (statusOf s sid) && (statusTag c == "idle")) = true
    · constructor
      · intro _
        simp [schedPred, hcond]
      · intro _
        have hlen : (handleSessionStatus sid c dir 0 s).scheduleLog.length
            = s.scheduleLog.length + 1 := by
          rw [hchar, if_pos hcond]
          simp
        have hmono := schedLog_run_le cfg oracle (statusEvents sid dir rest)
          (handleSessionStatus sid c dir 0 s)
        show (run cfg oracle (statusEvents sid dir rest)
          (step cfg oracle (Ev.status sid c dir 0) s)).scheduleLog.length > _
        have hstep : step cfg oracle (Ev.status sid c dir 0) s
            = handleSessionStatus sid c dir 0 s := rfl
        rw [hstep]
        omega
    · have hcondf : (prevTruthyNonIdle (statusOf s sid) && (statusTag c == "idle")) = false := by
        revert hcond
        cases prevTruthyNonIdle (statusOf s sid) && (statusTag c == "idle") <;> simp
      have hlog : (handleSessionStatus sid c dir 0 s).scheduleLog = s.scheduleLog := by
        rw [hchar, if_neg (by rw [hcondf]; exact Bool.noConfusion)]
      have hred : schedPred (statusOf s sid) (c :: rest)
          = schedPred (some (statusTag c)) rest := by
        simp [schedPred, hcondf]
      rw [hred]
      have hstep : step cfg oracle (Ev.status sid c dir 0) s
          = handleSessionStatus sid c dir 0 s := rfl
      rw [hstep, ← hlog]
      exact ihs

theorem schedPred_tag_iff :
    ∀ (obs : List SStatus) (a : SStatus),
      schedPred (some (statusTag a)) obs = true ↔
        ∃ i b c, (a :: obs).get? i = some b ∧ statusTag b ≠ "idle" ∧
          (a :: obs).get? (i + 1) = some c ∧ statusTag c = "idle" := by
  intro obs
  induction obs with
  | nil =>
    intro a
    simp only [schedPred]
    constructor
    · intro h
      exact absurd h (by simp)
    · rintro ⟨i, b, c, h1, h2, h3, h4⟩
      rcases i with _ | i
      · simp at h3
      · simp at h1
  | cons b' rest ih =>
    intro a
    simp only [schedPred]
    rw [prevTruthy_some_tag]
    constructor
    · intro h
      rw [Bool.or_eq_true] at h
      rcases h with hx | hy
      · rw [Bool.and_eq_true] at hx
        obtain ⟨ha, hb⟩ := hx
        refine ⟨0, a, b', by simp, by simpa using ha, by simp, by simpa using hb⟩
      · obtain ⟨i, b, c, h1, h2, h3, h4⟩ := (ih b').mp hy
        exact ⟨i + 1, b, c, by simpa using h1, h2, by simpa using h3, h4⟩
    · rintro ⟨i, b, c, h1, h2, h3, h4⟩
      rcases i with _ | i
      · have hb : b = a := by simpa using h1.symm
        have hc : c = b' := by simpa using h3.symm
        subst hb
        subst hc
        rw [Bool.or_eq_true]
        left
        rw [Bool.and_eq_true]
        exact ⟨by simpa using h2, by simpa using h4⟩
      · rw [Bool.or_eq_true]
        right
        exact (ih b').mpr ⟨i, b, c, by simpa using h1, h2, by simpa using h3, h4⟩

/-- C1: for every finite sequence of status observations delivered to the
    session-status handler for a single session identifier (starting from the
    initial state), a debounce notification timer is scheduled at some point
    if and only if the sequence contains a non-idle observation immediately
    followed by an idle observation; in particular a sequence whose first
    observation is idle schedules nothing on that first observation, since
    the guard requires a recorded prior non-idle status. -/
theorem claim_c1_schedule_iff_idle_edge (cfg : OcConfig)
    (oracle : String → String → Option SessionInfo) (sid dir : String)
    (obs : List SStatus) :
    (run cfg oracle (statusEvents sid dir obs) initState).scheduleLog ≠ [] ↔
      ∃ i b c, obs.get? i = some b ∧ statusTag b ≠ "idle" ∧
        obs.get? (i + 1) = some c ∧ statusTag c = "idle" := by
  have haux := schedPred_statusRun cfg oracle sid dir obs initState rfl
    (fun tid h => by simp [initState, mget] at h)
  have h0 : (initState : AppState).scheduleLog.length = 0 := rfl
  rw [h0] at haux
  cases obs with
  | nil =>
    simp only [statusEvents, List.map_nil, run_nil]
    constructor
    · intro h
      exact absurd rfl h
    · rintro ⟨i, b, c, h1, _, _, _⟩
      simp at h1
  | cons c rest =>
    have hnone : statusOf initState sid = none := rfl
    rw [hnone] at haux
    have hred : (schedPred none (c :: rest) = true)
        ↔ (schedPred (some (statusTag c)) rest = true) := by
      simp [schedPred, prevTruthyNonIdle]
    exact (List.length_pos.symm.trans (haux.trans (hred.trans (schedPred_tag_iff rest c))))

/-- C1 witness: the characterization evaluated on the concrete sequence
    busy, idle (which schedules) and on the singleton idle sequence (which
    does not). -/
theorem claim_c1_witness :
    ((run wcfg oracleTop (statusEvents "s1" "/p" [SStatus.busy, SStatus.idle])
        initState).scheduleLog ≠ [] ↔
      ∃ i b c, ([SStatus.busy, SStatus.idle] : List SStatus).get? i = some b ∧
        statusTag b ≠ "idle" ∧
        ([SStatus.busy, SStatus.idle] : List SStatus).get? (i + 1) = some c ∧
        statusTag c = "idle") :=
  claim_c1_schedule_iff_idle_edge wcfg oracleTop "s1" "/p" [SStatus.busy, SStatus.idle]

/-! C5: sessions whose metadata lookup reports a parent never notify. -/

theorem noSubagentNotif_step (cfg : OcConfig)
    (oracle : String → String → Option SessionInfo) (sid : String) (e : Ev) (s : AppState)
    (hpar : ∀ dir, isSubagentInfo (oracle sid dir) = true)
    (h : ∀ n ∈ s.sentNotifications, n.sessionId ≠ sid) :
    ∀ n ∈ (step cfg oracle e s).sentNotifications, n.sessionId ≠ sid := by
  cases e with
  | status sid' st dir now =>
    show ∀ n ∈ (handleSessionStatus sid' st dir now s).sentNotifications, n.sessionId ≠ sid
    rw [handleSessionStatus_sentNotifications]
    exact h
  | timerFire tid now =>
    show ∀ n ∈ (handleTimerFire cfg oracle tid now s).sentNotifications, n.sessionId ≠ sid
    unfold handleTimerFire
    split
    · exact h
    case h_2 t0 sid' dir heq =>
      dsimp only
      split
      · exact h
      · split
        · exact h
        · split
          · exact h
          case isFalse hsub =>
            intro n hn
            rcases List.mem_append.mp hn with hold | hnew
            · exact h n hold
            · have hn' : n = mkNotification cfg "idle" sid' dir now (oracle sid' dir) none := by
                simpa using hnew
              rw [hn']
              intro he
              have hss : sid' = sid := he
              exact hsub (by rw [hss]; exact hpar dir)
  | question sid' qs qo dir now =>
    show ∀ n ∈ (handleQuestion cfg oracle sid' qs qo dir now s).sentNotifications, n.sessionId ≠ sid
    unfold handleQuestion
    split
    · exact h
    · split
      · exact h
      · split
        · exact h
        · split
          · exact h
          case isFalse hsub =>
            intro n hn
            rcases List.mem_append.mp hn with hold | hnew
            · exact h n hold
            · have hn' : n = mkNotification cfg "question" sid' dir now (oracle sid' dir)
                  (some (extractQuestion qo)) := by
                simpa using hnew
              rw [hn']
              intro he
              have hss : sid' = sid := he
              exact hsub (by rw [hss]; exact hpar dir)
  | sweepS now => exact h
  | sweepQ now => exact h

/-- C5: for a session identifier whose metadata lookups report a parent
    session identifier, no notification is ever dispatched for that
    identifier, in any run of the event system from the initial state,
    whatever the interleaving of status, question, timer and sweep events
    (the sweeps may even drop the known-subagent marker; the per-dispatch
    metadata re-check still blocks the notification). -/
theorem claim_c5_subagent_never_notifies (cfg : OcConfig)
    (oracle : String → String → Option SessionInfo) (sid : String)
    (hpar : ∀ dir, isSubagentInfo (oracle sid dir) = true) (evs : List Ev) :
    ∀ n ∈ (run cfg oracle evs initState).sentNotifications, n.sessionId ≠ sid := by
  have hrun : ∀ (evs : List Ev) (s : AppState),
      (∀ n ∈ s.sentNotifications, n.sessionId ≠ sid) →
      ∀ n ∈ (run cfg oracle evs s).sentNotifications, n.sessionId ≠ sid := by
    intro evs
    induction evs with
    | nil => exact fun s h => h
    | cons e evs ih =>
      exact fun s h => ih (step cfg oracle e s) (noSubagentNotif_step cfg oracle sid e s hpar h)
  exact hrun evs initState (by intro n hn; simp [initState] at hn)

/-- C5 witness: the subagent oracle blocks the notification of an otherwise
    complete busy, idle, timer-expiry run. -/
theorem claim_c5_witness :
    (∀ dir, isSubagentInfo (oracleSub "s1" dir) = true) ∧
    (∀ n ∈ (run wcfg oracleSub
        [Ev.status "s1" SStatus.busy "/p" 1, Ev.status "s1" SStatus.idle "/p" 2,
         Ev.timerFire 0 6] initState).sentNotifications, n.sessionId ≠ "s1") :=
  ⟨fun _ => rfl,
   claim_c5_subagent_never_notifies wcfg oracleSub "s1" (fun _ => rfl)
     [Ev.status "s1" SStatus.busy "/p" 1, Ev.status "s1" SStatus.idle "/p" 2,
      Ev.timerFire 0 6]⟩

/-! C6: the reclamation sweep. -/

theorem mget_eq_none {α : Type} (l : List (String × α)) (k : String)
    (h : k ∉ l.map (·.1)) : mget l k = none := by
  induction l with
  | nil => rfl
  | cons hd t ih =>
    obtain ⟨k₀, v₀⟩ := hd
    simp only [List.map_cons, List.mem_cons] at h
    push_neg at h
    rw [mget_cons, if_neg (fun he => h.1 he.symm)]
    exact ih h.2

theorem mget_filter_nodup {α : Type} (l : List (String × α)) (p : String × α → Bool)
    (hn : (l.map (·.1)).Nodup) (k : String) :
    mget (l.filter p) k = match mget l k with
      | some v => if p (k, v) then some v else none
      | none => none := by
  induction l with
  | nil => simp [mget]
  | cons hd t ih =>
    obtain ⟨k₀, v₀⟩ := hd
    simp only [List.map_cons, List.nodup_cons] at hn
    obtain ⟨hk₀, hnt⟩ := hn
    by_cases hp : p (k₀, v₀) = true
    · rw [List.filter_cons_of_pos hp, mget_cons, mget_cons]
      by_cases hk : k₀ = k
      · subst hk
        simp [hp]
      · rw [if_neg hk, if_neg hk]
        exact ih hnt
    · rw [List.filter_cons_of_neg hp, mget_cons]
      by_cases hk : k₀ = k
      · subst hk
        rw [if_pos rfl]
        have hnone : mget t k₀ = none := mget_eq_none t k₀ hk₀
        rw [ih hnt, hnone]
        simp [hp]
      · rw [if_neg hk]
        exact ih hnt

theorem handleTimerFire_knownSubagents_mono (cfg : OcConfig)
    (oracle : String → String → Option SessionInfo) (tid now : Nat) (s : AppState)
    (k : String) (h : s.knownSubagents.contains k = true) :
    (handleTimerFire cfg oracle tid now s).knownSubagents.contains k = true := by
  unfold handleTimerFire
  split
  · exact h
  · dsimp only
    split
    · exact h
    · split
      · exact h
      · split
        · exact contains_sadd_of _ _ _ h
        · exact h

theorem handleQuestion_knownSubagents_mono (cfg : OcConfig)
    (oracle : String → String → Option SessionInfo) (sid qstatus : String)
    (qo : Option String) (dir : String) (now : Nat) (s : AppState)
    (k : String) (h : s.knownSubagents.contains k = true) :
    (handleQuestion cfg oracle sid qstatus qo dir now s).knownSubagents.contains k = true := by
  unfold handleQuestion
  split
  · exact h
  · split
    · exact h
    · split
      · exact h
      · split
        · exact contains_sadd_of _ _ _ h
        · exact h

/-- C6 counterexample: a question-tool event for a session that never emitted
    a status event marks it as a known subagent without creating a
    tracked-state entry; the reclamation sweep (here far beyond the
    retention threshold) leaves the marker in place, so a known-subagent
    member outlives the sweep with no corresponding tracked-state entry. -/
theorem claim_c6_counterexample :
    (run wcfg oracleSub
      [Ev.question "s3" "running" (some "q") "/p" 3, Ev.sweepS 999999999999]
      initState).knownSubagents.contains "s3" = true ∧
    mget (run wcfg oracleSub
      [Ev.question "s3" "running" (some "q") "/p" 3, Ev.sweepS 999999999999]
      initState).sessionState "s3" = none := by
  refine ⟨by decide, by decide⟩

/-- C6 (amended): a run of the reclamation sweep removes a session's
    tracked-state entry and its known-subagent marker exactly when
    `now - lastSeen` exceeds the 1-hour retention threshold, never removes a
    tracked entry (or the marker of a tracked session) seen more recently
    than the threshold, leaves the marker of a session with NO tracked-state
    entry untouched, and the known-subagent set is never shrunk by any
    non-sweep event. -/
theorem claim_c6_amended_reclamation (s : AppState) (now : Nat) (sid : String)
    (hn : (s.sessionState.map (·.1)).Nodup) :
    (∀ st : TrackedState, mget s.sessionState sid = some st →
       ((now - st.lastSeen > SESSION_TTL_MS →
           mget (sweepSessions now s).sessionState sid = none ∧
           (sweepSessions now s).knownSubagents.contains sid = false) ∧
        (now - st.lastSeen ≤ SESSION_TTL_MS →
           mget (sweepSessions now s).sessionState sid = some st ∧
           (sweepSessions now s).knownSubagents.contains sid
             = s.knownSubagents.contains sid))) ∧
    (mget s.sessionState sid = none →
       mget (sweepSessions now s).sessionState sid = none ∧
       (sweepSessions now s).knownSubagents.contains sid = s.knownSubagents.contains sid) ∧
    (∀ (cfg : OcConfig) (oracle : String → String → Option SessionInfo) (e : Ev),
       e.isSessionSweep = false → s.knownSubagents.contains sid = true →
       (step cfg oracle e s).knownSubagents.contains sid = true) := by
  have hstate : (sweepSessions now s).sessionState
      = s.sessionState.filter (fun p => decide (now - p.2.lastSeen ≤ SESSION_TTL_MS)) := rfl
  have hknown : (sweepSessions now s).knownSubagents
      = s.knownSubagents.filter (fun k =>
          match mget s.sessionState k with
          | some st => decide (now - st.lastSeen ≤ SESSION_TTL_MS)
          | none => true) := rfl
  refine ⟨?_, ?_, ?_⟩
  · intro st hst
    constructor
    · intro hstale
      have hle : ¬ (now - st.lastSeen ≤ SESSION_TTL_MS) := Nat.not_le.mpr hstale
      constructor
      · rw [hstate, mget_filter_nodup _ _ hn, hst]
        simp [hle]
      · rw [hknown, contains_filter, hst]
        simp [hle]
    · intro hfresh
      constructor
      · rw [hstate, mget_filter_nodup _ _ hn, hst]
        simp [hfresh]
      · rw [hknown, contains_filter, hst]
        simp [hfresh]
  · intro hnone
    constructor
    · rw [hstate, mget_filter_nodup _ _ hn, hnone]
    · rw [hknown, contains_filter, hnone]
      simp
  · intro cfg oracle e hns hmem
    cases e with
    | status sid' st dir now' =>
      show (handleSessionStatus sid' st dir now' s).knownSubagents.contains sid = true
      rw [handleSessionStatus_knownSubagents]
      exact hmem
    | timerFire tid now' => exact handleTimerFire_knownSubagents_mono cfg oracle tid now' s sid hmem
    | question sid' qs qo dir now' =>
      exact handleQuestion_knownSubagents_mono cfg oracle sid' qs qo dir now' s sid hmem
    | sweepS now' => exact absurd hns (by simp [Ev.isSessionSweep])
    | sweepQ now' => exact hmem

/-- C6 witness: the amended sweep behaviour evaluated on a session observed
    once and then reclaimed long after the retention threshold. -/
theorem claim_c6_witness :
    ((run wcfg oracleTop [Ev.status "a" SStatus.busy "/p" 1]
        initState).sessionState.map (·.1)).Nodup ∧
    (mget (sweepSessions 999999999 (run wcfg oracleTop
        [Ev.status "a" SStatus.busy "/p" 1] initState)).sessionState "a" = none ∧
     (sweepSessions 999999999 (run wcfg oracleTop
        [Ev.status "a" SStatus.busy "/p" 1] initState)).knownSubagents.contains "a" = false) :=
  ⟨by decide,
   ((claim_c6_amended_reclamation (run wcfg oracleTop
       [Ev.status "a" SStatus.busy "/p" 1] initState) 999999999 "a" (by decide)).1
     ⟨"busy", 1⟩ (by decide)).1 (by decide)⟩

/-- C2 witness: after busy then idle for a top-level session, a retry
    observation removes the pending entry. -/
theorem claim_c2_witness :
    mget (run wcfg oracleTop
      [Ev.status "s1" SStatus.busy "/p" 1, Ev.status "s1" SStatus.idle "/p" 2]
      initState).pending "s1" = some 0 ∧
    mget (step wcfg oracleTop (Ev.status "s1" (SStatus.retry 1 "m" 9) "/p" 5)
      (run wcfg oracleTop
        [Ev.status "s1" SStatus.busy "/p" 1, Ev.status "s1" SStatus.idle "/p" 2]
        initState)).pending "s1" = none :=
  ⟨by decide,
   (claim_c2_amended_nonidle_cancels wcfg oracleTop
     (run wcfg oracleTop
       [Ev.status "s1" SStatus.busy "/p" 1, Ev.status "s1" SStatus.idle "/p" 2]
       initState) "s1" 0 (SStatus.retry 1 "m" 9) "/p" 5
     (by decide) (by decide) (by decide)).1⟩

/-! C7: the reconnect backoff loop of `SSEClient.start` in
    `src/sse-client.ts`. -/

def MAX_RECONNECT_DELAY : Nat := 30000

/-- Outcome of one `connect()` invocation: `connFail` throws before the
    stream opens (non-2xx response, network error, missing body);
    `connSuccess clean` means response headers were received and the stream
    opened (so the delay reset at `sse-client.ts` line 170 ran), after which
    the stream either ended cleanly (`connect` returns, no sleep) or the read
    loop threw. -/
inductive ConnOutcome : Type where
  | connFail : ConnOutcome
  | connSuccess (cleanEnd : Bool) : ConnOutcome
deriving DecidableEq

/-- Effect of one `connect()` call on the reconnect delay: whether the call
    threw, and the delay after the call. -/
def connectSim : Nat → ConnOutcome → Bool × Nat
  | d, .connFail => (true, d)
  | _, .connSuccess clean => (!clean, 1000)

/-- One iteration of the `while (this.isRunning)` loop in `SSEClient.start`:
    when `connect()` throws, sleep the current reconnect delay, then double
    it, capped at the maximum. The first component accumulates the sleeps
    performed. -/
def startStep (acc : List Nat × Nat) (o : ConnOutcome) : List Nat × Nat :=
  match connectSim acc.2 o with
  | (true, d₁) => (acc.1 ++ [d₁], min (d₁ * 2) MAX_RECONNECT_DELAY)
  | (false, d₁) => (acc.1, d₁)

/-- The reconnect loop of `SSEClient.start`: initial delay 1000 ms, fold over
    a sequence of connection outcomes. -/
def startRun (os : List ConnOutcome) : List Nat × Nat :=
  os.foldl startStep ([], 1000)

/-- Specification-side streak counter: consecutive throwing `connect()`
    calls since the last successful connection (a connection that opened and
    then died counts as one throw after its reset). -/
def streakStep : Nat → ConnOutcome → Nat
  | k, .connFail => k + 1
  | _, .connSuccess true => 0
  | _, .connSuccess false => 1

def failStreak (os : List ConnOutcome) : Nat :=
  os.foldl streakStep 0

theorem minDouble (k : Nat) :
    min (min (1000 * 2 ^ k) MAX_RECONNECT_DELAY * 2) MAX_RECONNECT_DELAY
      = min (1000 * 2 ^ (k + 1)) MAX_RECONNECT_DELAY := by
  have h : (2:Nat) ^ (k + 1) = 2 ^ k * 2 := pow_succ 2 k
  rw [h]
  simp only [MAX_RECONNECT_DELAY]
  omega

theorem startRun_delay_aux :
    ∀ (os : List ConnOutcome) (sl : List Nat) (d k : Nat),
      d = min (1000 * 2 ^ k) MAX_RECONNECT_DELAY →
      (os.foldl startStep (sl, d)).2
        = min (1000 * 2 ^ (os.foldl streakStep k)) MAX_RECONNECT_DELAY := by
  intro os
  induction os with
  | nil => intro sl d k h; exact h
  | cons o rest ih =>
    intro sl d k h
    cases o with
    | connFail =>
      show (rest.foldl startStep (startStep (sl, d) ConnOutcome.connFail)).2 = _
      have hs : startStep (sl, d) ConnOutcome.connFail
          = (sl ++ [d], min (d * 2) MAX_RECONNECT_DELAY) := rfl
      rw [hs]
      have hd : min (d * 2) MAX_RECONNECT_DELAY
          = min (1000 * 2 ^ (k + 1)) MAX_RECONNECT_DELAY := by
        rw [h]
        exact minDouble k
      rw [hd]
      exact ih (sl ++ [d]) _ (k + 1) rfl
    | connSuccess clean =>
      cases clean with
      | true =>
        show (rest.foldl startStep (startStep (sl, d) (ConnOutcome.connSuccess true))).2 = _
        have hs : startStep (sl, d) (ConnOutcome.connSuccess true) = (sl, 1000) := rfl
        rw [hs]
        exact ih sl 1000 0 (by simp [MAX_RECONNECT_DELAY])
      | false =>
        show (rest.foldl startStep (startStep (sl, d) (ConnOutcome.connSuccess false))).2 = _
        have hs : startStep (sl, d) (ConnOutcome.connSuccess false)
            = (sl ++ [1000], min (1000 * 2) MAX_RECONNECT_DELAY) := rfl
        rw [hs]
        exact ih (sl ++ [1000]) _ 1 (by simp [MAX_RECONNECT_DELAY])

/-- C7: in every run of the reconnect loop, the delay in effect after a
    sequence of connection outcomes is `min (1000 * 2 ^ streak) 30000` where
    `streak` counts consecutive failures since the last success — so the
    sleep performed on the next failure is 1000 ms after zero consecutive
    failures, doubles with each consecutive failure and is capped at
    30000 ms; a clean stream end after a successful connection sleeps
    nothing; a stream that opened (delay reset to 1000 ms regardless of how
    long it survived) and then died sleeps exactly 1000 ms; and after any
    success the stored delay is back at the start of the doubling sequence. -/
theorem claim_c7_backoff_policy (os : List ConnOutcome) :
    (startRun os).2 = min (1000 * 2 ^ failStreak os) MAX_RECONNECT_DELAY ∧
    (startRun (os ++ [ConnOutcome.connFail])).1
      = (startRun os).1 ++ [min (1000 * 2 ^ failStreak os) MAX_RECONNECT_DELAY] ∧
    (startRun (os ++ [ConnOutcome.connSuccess true])).1 = (startRun os).1 ∧
    (startRun (os ++ [ConnOutcome.connSuccess false])).1 = (startRun os).1 ++ [1000] ∧
    (startRun (os ++ [ConnOutcome.connSuccess true])).2 = 1000 ∧
    (startRun (os ++ [ConnOutcome.connSuccess false])).2 = 2000 := by
  have hd : (startRun os).2 = min (1000 * 2 ^ failStreak os) MAX_RECONNECT_DELAY :=
    startRun_delay_aux os [] 1000 0 (by simp [MAX_RECONNECT_DELAY])
  have happ : ∀ o : ConnOutcome, startRun (os ++ [o]) = startStep (startRun os) o := by
    intro o
    unfold startRun
    rw [List.foldl_append]
    rfl
  refine ⟨hd, ?_, ?_, ?_, ?_, ?_⟩
  · rw [happ]
    have : startStep (startRun os) ConnOutcome.connFail
        = ((startRun os).1 ++ [(startRun os).2],
           min ((startRun os).2 * 2) MAX_RECONNECT_DELAY) := rfl
    rw [this, hd]
  · rw [happ]
    rfl
  · rw [happ]
    rfl
  · rw [happ]
    rfl
  · rw [happ]
    show min (1000 * 2) MAX_RECONNECT_DELAY = 2000
    simp [MAX_RECONNECT_DELAY]

/-! C9: the notification fan-out of `Notifier.send` in `src/notifier.ts`. -/

/-- A notification provider as seen by the `Notifier`: its type tag, its
    `enabled` flag, and its `send` behaviour (resolution or rejection) on a
    given notification. -/
structure ProviderModel : Type where
  ptype : String
  enabled : Bool
  deliver : Notification → Except String Unit

/-- The constructor filter `providers.filter((p) => p.enabled)`. -/
def enabledProviders (ps : List ProviderModel) : List ProviderModel :=
  ps.filter (fun p => p.enabled)

/-- Rejection test on a settled outcome, as in
    `results.filter((r) => r.status === "rejected")`. -/
def settledFailed : Except String Unit → Bool
  | .error _ => true
  | .ok _ => false

/-- `Notifier.send`: every enabled provider is attempted
    (`Promise.allSettled` records each outcome; a rejection never escapes the
    per-provider wrapper), and the rejected outcomes are counted. The result
    is the list of attempts with their outcomes and the failure count; the
    function is total, modelling that `send` resolves without raising past
    the dispatch boundary. -/
def notifierSend (ps : List ProviderModel) (n : Notification) :
    List (String × Except String Unit) × Nat :=
  ((enabledProviders ps).map (fun p => (p.ptype, p.deliver n)),
   (((enabledProviders ps).map (fun p => (p.ptype, p.deliver n))).filter
      (fun r => settledFailed r.2)).length)

theorem length_filter_map_eq {α β : Type} (l : List α) (f : α → β) (q : β → Bool) :
    ((l.map f).filter q).length = (l.filter (fun x => q (f x))).length := by
  induction l with
  | nil => rfl
  | cons hd t ih =>
    simp only [List.map_cons, List.filter_cons]
    by_cases hq : q (f hd) = true
    · simp [hq, ih]
    · simp [hq, ih]

/-- C9: the fan-out attempts delivery to every enabled destination
    independently of the outcomes of the other destinations: the attempted
    destinations are exactly the enabled providers in order, every enabled
    provider receives the payload, the reported failure count is the number
    of enabled providers whose delivery rejected, and the attempt list around
    any one provider is unaffected by that provider's outcome (splitting
    homomorphically around it). The dispatch itself is a total function:
    no rejection escapes it. -/
theorem claim_c9_fanout_independent (ps : List ProviderModel) (n : Notification) :
    (notifierSend ps n).1.map (·.1) = (ps.filter (fun p => p.enabled)).map (·.ptype) ∧
    (∀ p ∈ ps, p.enabled = true → (p.ptype, p.deliver n) ∈ (notifierSend ps n).1) ∧
    (notifierSend ps n).2
      = ((ps.filter (fun p => p.enabled)).filter
          (fun p => settledFailed (p.deliver n))).length ∧
    (∀ (ps₁ ps₂ : List ProviderModel) (p : ProviderModel),
       (notifierSend (ps₁ ++ p :: ps₂) n).1
         = (notifierSend ps₁ n).1
             ++ (if p.enabled then [(p.ptype, p.deliver n)] else [])
             ++ (notifierSend ps₂ n).1) := by
  refine ⟨?_, ?_, ?_, ?_⟩
  · simp only [notifierSend, List.map_map]
    rfl
  · intro p hp he
    exact List.mem_map.mpr ⟨p, List.mem_filter.mpr ⟨hp, by simp [he]⟩, rfl⟩
  · show (((enabledProviders ps).map (fun p => (p.ptype, p.deliver n))).filter
        (fun r => settledFailed r.2)).length = _
    rw [length_filter_map_eq]
    rfl
  · intro ps₁ ps₂ p
    show ((enabledProviders (ps₁ ++ p :: ps₂)).map (fun p => (p.ptype, p.deliver n))) = _
    simp only [enabledProviders, List.filter_append]
    by_cases he : p.enabled = true
    · rw [List.filter_cons_of_pos (by simp [he])]
      simp [he, notifierSend, enabledProviders]
    · rw [List.filter_cons_of_neg (by simp [he])]
      have : p.enabled = false := by
        revert he; cases p.enabled <;> simp
      simp [this, notifierSend, enabledProviders]

/-- Providers for the C9 witness: three enabled destinations, the second of
    which rejects. -/
def wproviders : List ProviderModel :=
  [{ ptype := "discord", enabled := true, deliver := fun _ => Except.ok () },
   { ptype := "msteams", enabled := true, deliver := fun _ => Except.error "HTTP 500" },
   { ptype := "webhook", enabled := true, deliver := fun _ => Except.ok () }]

def wnotification : Notification :=
  { ntype := "idle", sessionId := "s1", sessionTitle := "t", projectId := "p",
    projectDirectory := "/p", desktopUrl := "u", timestamp := 0, question := none }

/-- C9 witness: with three enabled destinations of which one fails, all
    three are attempted and the failure count is 1. -/
theorem claim_c9_witness :
    (notifierSend wproviders wnotification).1.map (·.1)
      = (wproviders.filter (fun p => p.enabled)).map (·.ptype) ∧
    (notifierSend wproviders wnotification).1.map (·.1) = ["discord", "msteams", "webhook"] ∧
    (notifierSend wproviders wnotification).2 = 1 :=
  ⟨(claim_c9_fanout_independent wproviders wnotification).1, by rfl, by rfl⟩

/-! C10: deduplication of question-tool notifications by session identifier
    and 100-character question-text prefix. -/

theorem mget_filter_kept {α : Type} (l : List (String × α)) (p : String × α → Bool)
    (k : String) (v : α) (h : mget l k = some v) (hp : p (k, v) = true) :
    mget (l.filter p) k = some v := by
  induction l with
  | nil => simp [mget] at h
  | cons hd t ih =>
    obtain ⟨k₀, v₀⟩ := hd
    rw [mget_cons] at h
    by_cases hk : k₀ = k
    · rw [if_pos hk] at h
      have hv : v₀ = v := Option.some.inj h
      subst hv
      subst hk
      rw [List.filter_cons_of_pos hp, mget_cons, if_pos rfl]
    · rw [if_neg hk] at h
      by_cases hph : p (k₀, v₀) = true
      · rw [List.filter_cons_of_pos hph, mget_cons, if_neg hk]
        exact ih h
      · rw [List.filter_cons_of_neg hph]
        exact ih h

theorem notifiedQuestions_run_preserved (cfg : OcConfig)
    (oracle : String → String → Option SessionInfo) :
    ∀ (evs : List Ev) (s : AppState) (k : String) (t : Nat),
      mget s.notifiedQuestions k = some t →
      (∀ now', Ev.sweepQ now' ∈ evs → now' - t ≤ QUESTION_TTL_MS) →
      mget (run cfg oracle evs s).notifiedQuestions k = some t := by
  intro evs
  induction evs with
  | nil => exact fun s k t h _ => h
  | cons e rest ih =>
    intro s k t h hsw
    rw [run_cons]
    refine ih (step cfg oracle e s) k t ?_ (fun now' hm => hsw now' (List.mem_cons_of_mem e hm))
    cases e with
    | status sid st dir now =>
      show mget (handleSessionStatus sid st dir now s).notifiedQuestions k = some t
      rw [handleSessionStatus_notifiedQuestions]
      exact h
    | timerFire tid now =>
      show mget (handleTimerFire cfg oracle tid now s).notifiedQuestions k = some t
      rw [handleTimerFire_notifiedQuestions]
      exact h
    | sweepS now => exact h
    | sweepQ now =>
      show mget (sweepQuestions now s).notifiedQuestions k = some t
      exact mget_filter_kept _ _ k t h
        (by simp [hsw now (List.mem_cons_self _ _)])
    | question sid' qs qo dir now =>
      show mget (handleQuestion cfg oracle sid' qs qo dir now s).notifiedQuestions k = some t
      unfold handleQuestion
      split
      · exact h
      · split
        · exact h
        · split
          case isTrue => exact h
          case isFalse hnk =>
            split
            · exact h
            · by_cases hkk : k = questionKey sid' (extractQuestion qo)
              · exfalso
                rw [← hkk] at hnk
                exact hnk (by simp [h])
              · show mget (mset s.notifiedQuestions
                    (questionKey sid' (extractQuestion qo)) now) k = some t
                rw [mget_mset_ne _ _ _ _ hkk]
                exact h

theorem handleQuestion_dichotomy (cfg : OcConfig)
    (oracle : String → String → Option SessionInfo) (sid qs : String) (qo : Option String)
    (dir : String) (now : Nat) (s : AppState) :
    (handleQuestion cfg oracle sid qs qo dir now s).sentNotifications
        = s.sentNotifications ∨
    ((handleQuestion cfg oracle sid qs qo dir now s).sentNotifications
        = s.sentNotifications
            ++ [mkNotification cfg "question" sid dir now (oracle sid dir)
                 (some (extractQuestion qo))] ∧
     mget (handleQuestion cfg oracle sid qs qo dir now s).notifiedQuestions
        (questionKey sid (extractQuestion qo)) = some now) := by
  unfold handleQuestion
  split
  · exact Or.inl rfl
  · split
    · exact Or.inl rfl
    · split
      · exact Or.inl rfl
      · split
        · exact Or.inl rfl
        · exact Or.inr ⟨rfl, mget_mset_self _ _ _⟩

theorem handleQuestion_blocked (cfg : OcConfig)
    (oracle : String → String → Option SessionInfo) (sid qs : String) (qo : Option String)
    (dir : String) (now : Nat) (s : AppState)
    (h : (mget s.notifiedQuestions (questionKey sid (extractQuestion qo))).isSome = true) :
    (handleQuestion cfg oracle sid qs qo dir now s).sentNotifications
      = s.sentNotifications := by
  unfold handleQuestion
  by_cases h1 : qs ≠ "running"
  · rw [if_pos h1]
  · rw [if_neg h1]
    by_cases h2 : s.knownSubagents.contains sid = true
    · rw [if_pos h2]
    · rw [if_neg h2, if_pos h]

theorem handleQuestion_sent_le (cfg : OcConfig)
    (oracle : String → String → Option SessionInfo) (sid qs : String) (qo : Option String)
    (dir : String) (now : Nat) (s : AppState) :
    (handleQuestion cfg oracle sid qs qo dir now s).sentNotifications.length
      ≤ s.sentNotifications.length + 1 := by
  rcases handleQuestion_dichotomy cfg oracle sid qs qo dir now s with h | ⟨h, _⟩
  · rw [h]; omega
  · rw [h]; simp

/-- C10: two question-tool events in `running` state for the same session
    whose extracted question texts agree on their first 100 characters share
    the dedup key (sessionID, a colon, the 100-character prefix) and together
    produce at most one question notification, for any events in between
    whose question-dedup sweeps all happen within the 30-minute retention
    window of the first event. -/
theorem claim_c10_question_dedup (cfg : OcConfig)
    (oracle : String → String → Option SessionInfo) (s : AppState) (sid : String)
    (qo₁ qo₂ : Option String) (dir₁ dir₂ : String) (now₁ now₂ : Nat) (evs : List Ev)
    (hpre : (extractQuestion qo₁).take 100 = (extractQuestion qo₂).take 100)
    (hsw : ∀ now', Ev.sweepQ now' ∈ evs → now' - now₁ ≤ QUESTION_TTL_MS) :
    questionKey sid (extractQuestion qo₁) = questionKey sid (extractQuestion qo₂) ∧
    ((step cfg oracle (Ev.question sid "running" qo₁ dir₁ now₁) s).sentNotifications.length
        - s.sentNotifications.length)
      + ((step cfg oracle (Ev.question sid "running" qo₂ dir₂ now₂)
            (run cfg oracle evs
              (step cfg oracle (Ev.question sid "running" qo₁ dir₁ now₁) s))).sentNotifications.length
         - (run cfg oracle evs
              (step cfg oracle (Ev.question sid "running" qo₁ dir₁ now₁) s)).sentNotifications.length)
      ≤ 1 := by
  have hkey : questionKey sid (extractQuestion qo₁) = questionKey sid (extractQuestion qo₂) := by
    unfold questionKey
    rw [hpre]
  refine ⟨hkey, ?_⟩
  rcases handleQuestion_dichotomy cfg oracle sid "running" qo₁ dir₁ now₁ s with h1 | ⟨h1, hk1⟩
  · have hz : (step cfg oracle (Ev.question sid "running" qo₁ dir₁ now₁) s).sentNotifications.length
        - s.sentNotifications.length = 0 := by
      show (handleQuestion cfg oracle sid "running" qo₁ dir₁ now₁ s).sentNotifications.length - _ = 0
      rw [h1]
      omega
    have hle := handleQuestion_sent_le cfg oracle sid "running" qo₂ dir₂ now₂
      (run cfg oracle evs (step cfg oracle (Ev.question sid "running" qo₁ dir₁ now₁) s))
    rw [hz]
    show 0 + ((handleQuestion cfg oracle sid "running" qo₂ dir₂ now₂ _).sentNotifications.length
      - _) ≤ 1
    omega
  · have hone : (step cfg oracle (Ev.question sid "running" qo₁ dir₁ now₁) s).sentNotifications.length
        - s.sentNotifications.length = 1 := by
      show (handleQuestion cfg oracle sid "running" qo₁ dir₁ now₁ s).sentNotifications.length - _ = 1
      rw [h1]
      simp
    have hpres := notifiedQuestions_run_preserved cfg oracle evs
      (step cfg oracle (Ev.question sid "running" qo₁ dir₁ now₁) s)
      (questionKey sid (extractQuestion qo₁)) now₁ hk1 hsw
    have hblocked := handleQuestion_blocked cfg oracle sid "running" qo₂ dir₂ now₂
      (run cfg oracle evs (step cfg oracle (Ev.question sid "running" qo₁ dir₁ now₁) s))
      (by rw [← hkey, hpres]; rfl)
    have hz : (step cfg oracle (Ev.question sid "running" qo₂ dir₂ now₂)
          (run cfg oracle evs
            (step cfg oracle (Ev.question sid "running" qo₁ dir₁ now₁) s))).sentNotifications.length
        - (run cfg oracle evs
            (step cfg oracle (Ev.question sid "running" qo₁ dir₁ now₁) s)).sentNotifications.length
        = 0 := by
      show (handleQuestion cfg oracle sid "running" qo₂ dir₂ now₂ _).sentNotifications.length
        - _ = 0
      rw [hblocked]
      omega
    rw [hone, hz]


/-- Question texts for the C10 witness: 101 characters, agreeing on the
    first 100 and differing at the last. -/
def qTextA : String := "aaaaaaaaaaaaaaaaaaaaaaaaaaaaaaaaaaaaaaaaaaaaaaaaaaaaaaaaaaaaaaaaaaaaaaaaaaaaaaaaaaaaaaaaaaaaaaaaaaaab"

def qTextB : String := "aaaaaaaaaaaaaaaaaaaaaaaaaaaaaaaaaaaaaaaaaaaaaaaaaaaaaaaaaaaaaaaaaaaaaaaaaaaaaaaaaaaaaaaaaaaaaaaaaaaac"

/-- C10 witness: the dedup theorem applied to two concrete question events
    whose texts differ only beyond the 100-character prefix, with no events
    in between. -/
theorem claim_c10_witness :
    ((extractQuestion (some qTextA)).take 100 = (extractQuestion (some qTextB)).take 100) ∧
    qTextA ≠ qTextB ∧
    (∀ now', Ev.sweepQ now' ∈ ([] : List Ev) → now' - 5 ≤ QUESTION_TTL_MS) ∧
    (questionKey "s1" (extractQuestion (some qTextA))
        = questionKey "s1" (extractQuestion (some qTextB)) ∧
     ((step wcfg oracleTop (Ev.question "s1" "running" (some qTextA) "/p" 5)
          initState).sentNotifications.length
         - (initState : AppState).sentNotifications.length)
       + ((step wcfg oracleTop (Ev.question "s1" "running" (some qTextB) "/p" 7)
             (run wcfg oracleTop []
               (step wcfg oracleTop (Ev.question "s1" "running" (some qTextA) "/p" 5)
                 initState))).sentNotifications.length
          - (run wcfg oracleTop []
               (step wcfg oracleTop (Ev.question "s1" "running" (some qTextA) "/p" 5)
                 initState)).sentNotifications.length)
       ≤ 1) :=
  ⟨by decide, by decide, fun now' hm => absurd hm (List.not_mem_nil _),
   claim_c10_question_dedup wcfg oracleTop initState "s1" (some qTextA) (some qTextB)
     "/p" "/p" 5 7 [] (by decide) (fun now' hm => absurd hm (List.not_mem_nil _))⟩

/-! C8: the SSE stream decoder of `SSEClient.connect`, `processLine` and
    `processEvent` in `src/sse-client.ts`. Byte chunks are modelled as
    character lists; the JSON envelope parser is an arbitrary oracle
    `parse : List Char → Option E` returning `none` on malformed input. -/

/-- Decoder state: the partial-line buffer of the read loop in `connect`,
    the `currentEventData` frame accumulator, the envelopes handed to the
    dispatch in `processEvent`, and the count of parse failures logged. -/
structure DecState (E : Type) : Type where
  buffer : List Char
  currentEventData : List Char
  emitted : List E
  parseErrors : Nat

def initDec (E : Type) : DecState E :=
  { buffer := [], currentEventData := [], emitted := [], parseErrors := 0 }

theorem decStateExt {E : Type} {s₁ s₂ : DecState E} (h1 : s₁.buffer = s₂.buffer)
    (h2 : s₁.currentEventData = s₂.currentEventData) (h3 : s₁.emitted = s₂.emitted)
    (h4 : s₁.parseErrors = s₂.parseErrors) : s₁ = s₂ := by
  cases s₁
  cases s₂
  cases h1
  cases h2
  cases h3
  cases h4
  rfl

/-- Splitting on line feeds, as `buffer.split("\n")` does: always at least
    one (possibly empty) part, the last part being the unterminated rest. -/
def splitNL : List Char → List (List Char)
  | [] => [[]]
  | c :: cs =>
    if c = '\n' then [] :: splitNL cs
    else (c :: (splitNL cs).headD []) :: (splitNL cs).tail

/-- Last element with default, as `lines.pop() || ""`. -/
def lastD {α : Type} : List α → α → α
  | [], d => d
  | [x], _ => x
  | _ :: x :: xs, d => lastD (x :: xs) d

/-- JavaScript `trim()` on the remainder of a `data:` line. -/
def trimWS (l : List Char) : List Char :=
  ((l.dropWhile Char.isWhitespace).reverse.dropWhile Char.isWhitespace).reverse

/-- `SSEClient.processEvent`: parse the accumulated frame; on success hand
    the envelope to the handlers, on failure log and continue. -/
def processEvent {E : Type} (parse : List Char → Option E) (data : List Char)
    (st : DecState E) : DecState E :=
  match parse data with
  | some ev => { st with emitted := st.emitted ++ [ev] }
  | none => { st with parseErrors := st.parseErrors + 1 }

/-- `SSEClient.processLine`: a `data:` line appends its trimmed remainder to
    the frame accumulator; an empty line with a non-empty accumulator
    terminates the frame; anything else is ignored. -/
def processLine {E : Type} (parse : List Char → Option E) (line : List Char)
    (st : DecState E) : DecState E :=
  if line.take 5 = "data:".toList then
    { st with currentEventData := st.currentEventData ++ trimWS (line.drop 5) }
  else if line = [] ∧ st.currentEventData ≠ [] then
    processEvent parse st.currentEventData { st with currentEventData := [] }
  else st

/-- One iteration of the read loop in `SSEClient.connect`: append the chunk
    to the buffer, split on line feeds, keep the last (incomplete) part as
    the new buffer and process every complete line. -/
def decodeChunk {E : Type} (parse : List Char → Option E) (st : DecState E)
    (chunk : List Char) : DecState E :=
  { (splitNL (st.buffer ++ chunk)).dropLast.foldl (fun s l => processLine parse l s) st with
    buffer := lastD (splitNL (st.buffer ++ chunk)) [] }

/-- The read loop over a sequence of received chunks. -/
def decodeRun {E : Type} (parse : List Char → Option E) (chunks : List (List Char)) :
    DecState E :=
  chunks.foldl (decodeChunk parse) (initDec E)

/-- Specification-side framing: the frames terminated by an empty line when
    scanning complete lines with a given accumulator. -/
def specFrames : List (List Char) → List Char → List (List Char)
  | [], _ => []
  | l :: ls, acc =>
    if l.take 5 = "data:".toList then specFrames ls (acc ++ trimWS (l.drop 5))
    else if l = [] ∧ acc ≠ [] then acc :: specFrames ls []
    else specFrames ls acc

/-- Specification-side accumulator left after scanning complete lines. -/
def specAcc : List (List Char) → List Char → List Char
  | [], acc => acc
  | l :: ls, acc =>
    if l.take 5 = "data:".toList then specAcc ls (acc ++ trimWS (l.drop 5))
    else if l = [] ∧ acc ≠ [] then specAcc ls []
    else specAcc ls acc

theorem splitNL_ne_nil (s : List Char) : splitNL s ≠ [] := by
  induction s with
  | nil => simp [splitNL]
  | cons c cs ih =>
    simp only [splitNL]
    split <;> simp

def joinFirst (pre : List Char) : List (List Char) → List (List Char)
  | [] => [pre]
  | l :: ls => (pre ++ l) :: ls

theorem joinFirst_ne_nil (pre : List Char) (ls : List (List Char)) :
    joinFirst pre ls ≠ [] := by
  cases ls <;> simp [joinFirst]

theorem lastD_cons_cons {α : Type} (a b : α) (l : List α) (d : α) :
    lastD (a :: b :: l) d = lastD (b :: l) d := rfl

theorem lastD_append {α : Type} (u v : List α) (d : α) (hv : v ≠ []) :
    lastD (u ++ v) d = lastD v d := by
  induction u with
  | nil => rfl
  | cons x u' ih =>
    cases hw : u' ++ v with
    | nil => exact absurd (List.append_eq_nil.mp hw).2 hv
    | cons y ys =>
      show lastD (x :: (u' ++ v)) d = lastD v d
      rw [hw, lastD_cons_cons, ← hw]
      exact ih

theorem dropLast_append_ne {α : Type} (u v : List α) (hv : v ≠ []) :
    (u ++ v).dropLast = u ++ v.dropLast := by
  induction u with
  | nil => rfl
  | cons x u' ih =>
    cases hw : u' ++ v with
    | nil => exact absurd (List.append_eq_nil.mp hw).2 hv
    | cons y ys =>
      show (x :: (u' ++ v)).dropLast = x :: (u' ++ v.dropLast)
      rw [hw]
      show x :: (y :: ys).dropLast = x :: (u' ++ v.dropLast)
      rw [← hw, ih]

theorem splitNL_cons_nl (cs : List Char) : splitNL ('\n' :: cs) = [] :: splitNL cs := by
  simp [splitNL]

theorem splitNL_cons_other (c : Char) (cs : List Char) (hc : c ≠ '\n') :
    splitNL (c :: cs) = (c :: (splitNL cs).headD []) :: (splitNL cs).tail := by
  simp [splitNL, hc]

theorem splitNL_append (x y : List Char) :
    splitNL (x ++ y)
      = (splitNL x).dropLast ++ joinFirst (lastD (splitNL x) []) (splitNL y) := by
  induction x with
  | nil =>
    show splitNL y = ([] : List (List Char)) ++ joinFirst [] (splitNL y)
    cases hy : splitNL y with
    | nil => exact absurd hy (splitNL_ne_nil y)
    | cons l ls => rfl
  | cons c cs ih =>
    by_cases hc : c = '\n'
    · subst hc
      show splitNL ('\n' :: (cs ++ y)) = _
      rw [splitNL_cons_nl, ih, splitNL_cons_nl]
      cases hS : splitNL cs with
      | nil => exact absurd hS (splitNL_ne_nil cs)
      | cons s0 stail => rfl
    · show splitNL (c :: (cs ++ y)) = _
      rw [splitNL_cons_other c _ hc, ih, splitNL_cons_other c _ hc]
      cases hS : splitNL cs with
      | nil => exact absurd hS (splitNL_ne_nil cs)
      | cons s0 stail =>
        cases hY : splitNL y with
        | nil => exact absurd hY (splitNL_ne_nil y)
        | cons y0 ytail =>
          cases stail with
          | nil => rfl
          | cons s1 srest => rfl

theorem noNL_lastD_splitNL (s : List Char) : '\n' ∉ lastD (splitNL s) [] := by
  induction s with
  | nil => simp [splitNL, lastD]
  | cons c cs ih =>
    by_cases hc : c = '\n'
    · subst hc
      rw [splitNL_cons_nl]
      cases hS : splitNL cs with
      | nil => exact absurd hS (splitNL_ne_nil cs)
      | cons s0 stail =>
        rw [hS] at ih
        rw [lastD_cons_cons]
        exact ih
    · rw [splitNL_cons_other c cs hc]
      cases hS : splitNL cs with
      | nil => exact absurd hS (splitNL_ne_nil cs)
      | cons s0 stail =>
        rw [hS] at ih
        cases stail with
        | nil =>
          show '\n' ∉ lastD [c :: s0] []
          intro hmem
          rcases List.mem_cons.mp hmem with h | h
          · exact hc h.symm
          · exact ih h
        | cons s1 srest => exact ih

theorem splitNL_of_noNL (l : List Char) (h : '\n' ∉ l) : splitNL l = [l] := by
  induction l with
  | nil => rfl
  | cons c cs ih =>
    have hc : c ≠ '\n' := fun he => h (he ▸ List.mem_cons_self _ _)
    have hcs : '\n' ∉ cs := fun hm => h (List.mem_cons_of_mem _ hm)
    rw [splitNL_cons_other c cs hc, ih hcs]
    rfl

theorem specAcc_append :
    ∀ (u v : List (List Char)) (acc : List Char),
      specAcc (u ++ v) acc = specAcc v (specAcc u acc) := by
  intro u
  induction u with
  | nil => intro v acc; rfl
  | cons l ls ih =>
    intro v acc
    show specAcc (l :: (ls ++ v)) acc = specAcc v (specAcc (l :: ls) acc)
    simp only [specAcc]
    by_cases h1 : l.take 5 = "data:".toList
    · rw [if_pos h1, if_pos h1, ih]
    · by_cases h2 : l = [] ∧ acc ≠ []
      · rw [if_neg h1, if_neg h1, if_pos h2, if_pos h2, ih]
      · rw [if_neg h1, if_neg h1, if_neg h2, if_neg h2, ih]

theorem specFrames_append :
    ∀ (u v : List (List Char)) (acc : List Char),
      specFrames (u ++ v) acc = specFrames u acc ++ specFrames v (specAcc u acc) := by
  intro u
  induction u with
  | nil => intro v acc; rfl
  | cons l ls ih =>
    intro v acc
    show specFrames (l :: (ls ++ v)) acc
      = specFrames (l :: ls) acc ++ specFrames v (specAcc (l :: ls) acc)
    simp only [specFrames, specAcc]
    by_cases h1 : l.take 5 = "data:".toList
    · rw [if_pos h1, if_pos h1, if_pos h1, ih]
    · by_cases h2 : l = [] ∧ acc ≠ []
      · rw [if_neg h1, if_neg h1, if_neg h1, if_pos h2, if_pos h2, if_pos h2, ih]
        rfl
      · rw [if_neg h1, if_neg h1, if_neg h1, if_neg h2, if_neg h2, if_neg h2, ih]

theorem foldl_processLine_char {E : Type} (parse : List Char → Option E) :
    ∀ (ls : List (List Char)) (st : DecState E),
      (ls.foldl (fun s l => processLine parse l s) st).buffer = st.buffer ∧
      (ls.foldl (fun s l => processLine parse l s) st).currentEventData
        = specAcc ls st.currentEventData ∧
      (ls.foldl (fun s l => processLine parse l s) st).emitted
        = st.emitted ++ (specFrames ls st.currentEventData).filterMap parse ∧
      (ls.foldl (fun s l => processLine parse l s) st).parseErrors
        = st.parseErrors
          + ((specFrames ls st.currentEventData).filter (fun f => (parse f).isNone)).length := by
  intro ls
  induction ls with
  | nil =>
    intro st
    exact ⟨rfl, rfl, by simp [specFrames], by simp [specFrames]⟩
  | cons l ls ih =>
    intro st
    have hstep : (l :: ls).foldl (fun s l => processLine parse l s) st
        = ls.foldl (fun s l => processLine parse l s) (processLine parse l st) := rfl
    rw [hstep]
    obtain ⟨hb, ha, he, hp⟩ := ih (processLine parse l st)
    by_cases h1 : l.take 5 = "data:".toList
    · have hpl : processLine parse l st
          = { st with currentEventData := st.currentEventData ++ trimWS (l.drop 5) } := by
        unfold processLine
        rw [if_pos h1]
      rw [hpl] at hb ha he hp
      rw [hpl]
      have hsf : specFrames (l :: ls) st.currentEventData
          = specFrames ls (st.currentEventData ++ trimWS (l.drop 5)) := by
        simp only [specFrames]
        rw [if_pos h1]
      have hsa : specAcc (l :: ls) st.currentEventData
          = specAcc ls (st.currentEventData ++ trimWS (l.drop 5)) := by
        simp only [specAcc]
        rw [if_pos h1]
      exact ⟨hb, by rw [hsa]; exact ha, by rw [hsf]; exact he, by rw [hsf]; exact hp⟩
    · by_cases h2 : l = [] ∧ st.currentEventData ≠ []
      · have hpl : processLine parse l st
            = processEvent parse st.currentEventData { st with currentEventData := [] } := by
          unfold processLine
          rw [if_neg h1, if_pos h2]
        rw [hpl] at hb ha he hp
        rw [hpl]
        have hsf : specFrames (l :: ls) st.currentEventData
            = st.currentEventData :: specFrames ls [] := by
          simp only [specFrames]
          rw [if_neg h1, if_pos h2]
        have hsa : specAcc (l :: ls) st.currentEventData = specAcc ls [] := by
          simp only [specAcc]
          rw [if_neg h1, if_pos h2]
        cases hpe : parse st.currentEventData with
        | some ev =>
          have hev : processEvent parse st.currentEventData { st with currentEventData := [] }
              = { st with currentEventData := [], emitted := st.emitted ++ [ev] } := by
            unfold processEvent
            rw [hpe]
          rw [hev] at hb ha he hp
          rw [hev]
          refine ⟨hb, by rw [hsa]; exact ha, ?_, ?_⟩
          · rw [hsf]
            rw [show (st.currentEventData :: specFrames ls []).filterMap parse
                = ev :: (specFrames ls []).filterMap parse from by
              simp [List.filterMap_cons, hpe]]
            rw [he]
            simp
          · rw [hsf]
            rw [show ((st.currentEventData :: specFrames ls []).filter
                  (fun f => (parse f).isNone)).length
                = ((specFrames ls []).filter (fun f => (parse f).isNone)).length from by
              simp [List.filter_cons, hpe]]
            exact hp
        | none =>
          have hev : processEvent parse st.currentEventData { st with currentEventData := [] }
              = { st with currentEventData := [], parseErrors := st.parseErrors + 1 } := by
            unfold processEvent
            rw [hpe]
          rw [hev] at hb ha he hp
          rw [hev]
          refine ⟨hb, by rw [hsa]; exact ha, ?_, ?_⟩
          · rw [hsf]
            rw [show (st.currentEventData :: specFrames ls []).filterMap parse
                = (specFrames ls []).filterMap parse from by
              simp [List.filterMap_cons, hpe]]
            exact he
          · rw [hsf]
            rw [show ((st.currentEventData :: specFrames ls []).filter
                  (fun f => (parse f).isNone)).length
                = ((specFrames ls []).filter (fun f => (parse f).isNone)).length + 1 from by
              simp [List.filter_cons, hpe]]
            rw [hp]
            dsimp only
            omega
      · have hpl : processLine parse l st = st := by
          unfold processLine
          rw [if_neg h1, if_neg h2]
        rw [hpl] at hb ha he hp
        rw [hpl]
        have hsf : specFrames (l :: ls) st.currentEventData
            = specFrames ls st.currentEventData := by
          simp only [specFrames]
          rw [if_neg h1, if_neg h2]
        have hsa : specAcc (l :: ls) st.currentEventData
            = specAcc ls st.currentEventData := by
          simp only [specAcc]
          rw [if_neg h1, if_neg h2]
        exact ⟨hb, by rw [hsa]; exact ha, by rw [hsf]; exact he, by rw [hsf]; exact hp⟩

theorem decodeChunk_char {E : Type} (parse : List Char → Option E) (st : DecState E)
    (chunk : List Char) :
    (decodeChunk parse st chunk).buffer = lastD (splitNL (st.buffer ++ chunk)) [] ∧
    (decodeChunk parse st chunk).currentEventData
      = specAcc (splitNL (st.buffer ++ chunk)).dropLast st.currentEventData ∧
    (decodeChunk parse st chunk).emitted
      = st.emitted
        ++ (specFrames (splitNL (st.buffer ++ chunk)).dropLast
              st.currentEventData).filterMap parse ∧
    (decodeChunk parse st chunk).parseErrors
      = st.parseErrors
        + ((specFrames (splitNL (st.buffer ++ chunk)).dropLast st.currentEventData).filter
            (fun f => (parse f).isNone)).length := by
  obtain ⟨hb, ha, he, hp⟩ :=
    foldl_processLine_char parse (splitNL (st.buffer ++ chunk)).dropLast st
  exact ⟨rfl, ha, he, hp⟩

theorem decodeChunk_append {E : Type} (parse : List Char → Option E) (st : DecState E)
    (a b : List Char) :
    decodeChunk parse (decodeChunk parse st a) b = decodeChunk parse st (a ++ b) := by
  have hL : '\n' ∉ lastD (splitNL (st.buffer ++ a)) [] := noNL_lastD_splitNL _
  have hJne : joinFirst (lastD (splitNL (st.buffer ++ a)) []) (splitNL b) ≠ [] :=
    joinFirst_ne_nil _ _
  have hsplit1 : splitNL ((decodeChunk parse st a).buffer ++ b)
      = joinFirst (lastD (splitNL (st.buffer ++ a)) []) (splitNL b) := by
    have hbuf : (decodeChunk parse st a).buffer = lastD (splitNL (st.buffer ++ a)) [] := rfl
    rw [hbuf, splitNL_append (lastD (splitNL (st.buffer ++ a)) []) b,
      splitNL_of_noNL _ hL]
    rfl
  have hsplit2 : splitNL (st.buffer ++ (a ++ b))
      = (splitNL (st.buffer ++ a)).dropLast
          ++ joinFirst (lastD (splitNL (st.buffer ++ a)) []) (splitNL b) := by
    rw [show st.buffer ++ (a ++ b) = (st.buffer ++ a) ++ b from (List.append_assoc _ _ _).symm,
      splitNL_append]
  obtain ⟨b1, a1, e1, p1⟩ := decodeChunk_char parse st a
  obtain ⟨b2, a2, e2, p2⟩ := decodeChunk_char parse (decodeChunk parse st a) b
  obtain ⟨b3, a3, e3, p3⟩ := decodeChunk_char parse st (a ++ b)
  have hdl : (splitNL (st.buffer ++ (a ++ b))).dropLast
      = (splitNL (st.buffer ++ a)).dropLast
          ++ (joinFirst (lastD (splitNL (st.buffer ++ a)) []) (splitNL b)).dropLast := by
    rw [hsplit2, dropLast_append_ne _ _ hJne]
  apply decStateExt
  · rw [b2, b3, hsplit1, hsplit2, lastD_append _ _ _ hJne]
  · rw [a2, a3, hsplit1, a1, hdl, specAcc_append]
  · rw [e2, e3, hsplit1, a1, e1, hdl, specFrames_append, List.filterMap_append,
      List.append_assoc]
  · rw [p2, p3, hsplit1, a1, p1, hdl, specFrames_append, List.filter_append,
      List.length_append, Nat.add_assoc]

theorem decodeChunk_nil {E : Type} (parse : List Char → Option E) (st : DecState E)
    (h : '\n' ∉ st.buffer) : decodeChunk parse st [] = st := by
  have hsp : splitNL (st.buffer ++ []) = [st.buffer] := by
    rw [List.append_nil]
    exact splitNL_of_noNL _ h
  obtain ⟨hb, ha, he, hp⟩ := decodeChunk_char parse st []
  apply decStateExt
  · rw [hb, hsp]
    rfl
  · rw [ha, hsp]
    rfl
  · rw [he, hsp]
    simp [specFrames]
  · rw [hp, hsp]
    simp [specFrames]

theorem foldl_decodeChunk_join {E : Type} (parse : List Char → Option E) :
    ∀ (chunks : List (List Char)) (st : DecState E), '\n' ∉ st.buffer →
      chunks.foldl (decodeChunk parse) st = decodeChunk parse st chunks.flatten := by
  intro chunks
  induction chunks with
  | nil => intro st h; exact (decodeChunk_nil parse st h).symm
  | cons c rest ih =>
    intro st h
    show rest.foldl (decodeChunk parse) (decodeChunk parse st c) = _
    have hb : '\n' ∉ (decodeChunk parse st c).buffer :=
      noNL_lastD_splitNL (st.buffer ++ c)
    rw [ih (decodeChunk parse st c) hb, decodeChunk_append]
    rfl

/-- C8: for every input-chunk sequence and every envelope parser, the
    decoder is a function of the concatenated stream only (partial lines are
    buffered across chunk boundaries), frames are exactly the `data:`
    accumulations terminated by an empty line, the emitted envelopes are the
    parses of the well-formed frames in order (a frame the parser rejects is
    counted as a logged error and skipped, and decoding of the subsequent
    frames is unchanged), and the trailing unterminated part stays in the
    buffer. -/
theorem claim_c8_decoder_frames (E : Type) (parse : List Char → Option E)
    (chunks : List (List Char)) :
    decodeRun parse chunks = decodeChunk parse (initDec E) chunks.flatten ∧
    (decodeRun parse chunks).emitted
      = (specFrames (splitNL chunks.flatten).dropLast []).filterMap parse ∧
    (decodeRun parse chunks).parseErrors
      = ((specFrames (splitNL chunks.flatten).dropLast []).filter
          (fun f => (parse f).isNone)).length ∧
    (decodeRun parse chunks).buffer = lastD (splitNL chunks.flatten) [] := by
  have h1 : decodeRun parse chunks = decodeChunk parse (initDec E) chunks.flatten :=
    foldl_decodeChunk_join parse chunks (initDec E) (by simp [initDec])
  obtain ⟨hb, ha, he, hp⟩ := decodeChunk_char parse (initDec E) chunks.flatten
  refine ⟨h1, ?_, ?_, ?_⟩
  · rw [h1]
    exact he
  · rw [h1, hp]
    simp [initDec]
  · rw [h1]
    exact hb

end OcNotifier
